import Mathlib

/-!
# A verification development for the leveled logger (`log.go`)

The Go package is embedded shallowly.

* Everything mutable outside the logger (the internal state of the sinks, the
  clock) lives in a world `W` that is passed through every call.
* A value of the interface `Sink` is represented by its `Append` method, a
  function `Message → W → error × W`; a value of the interface `TimeSource`
  by its `Now` method, a function `W → Time × W`.  An interface value holding
  `&Filter{Sink: s, Level: T}` is therefore `Filter.Append ⟨s, T⟩`, and a
  `*Logger` used as a sink is `Logger.Append`.
* `error` is `Option Err`: `none` is `nil`, `some e` a non-nil error whose
  `Error()` text is `e.Error`.
* `fmt.Sprintf` belongs to the Go library; the logger functions take it as the
  parameter `Sprintf`, so that what is proved of them holds for whatever the
  library does.  `fmtSprintf` is a model of the library on a fragment of the
  format language, used to evaluate concrete calls.
* Messages are values: a sink cannot change the message the other sinks see,
  and the logger is not modified while it appends.  A call to a sink returns:
  sinks are total functions of the message and the world.
* `os.Stderr.Write`, which the stream sink of `std.go` calls, is the parameter
  `write` of `Std.Write`; the buffer of the sink is returned with the result.
  Its mutex has no counterpart: runs are sequential.
* Calls are observed through `World`, which keeps a trace next to the state:
  `Probe` is a sink that records the messages it is handed, as `MockSink` of
  `log_test.go` does, and then behaves in an arbitrary way; `ProbeClock` is a
  clock whose readings are recorded.
-/

set_option linter.dupNamespace false

namespace Log

/-! ## Data model (`log.go`) -/

/-- Go `type Level int`. -/
abbrev Level := Int

/-- Go `Trace Level = 0`. -/
def Trace : Level := 0

/-- Go `Info Level = 1`. -/
def Info : Level := 1

/-- Go `Error Level = 2`. -/
def Error : Level := 2

/-- An instant of `time.Time`, reduced to a point on a line. -/
abbrev Time := Nat

/-- Go `type Message struct`. -/
structure Message where
  Level : Level
  Time : Time
  Message : String
  deriving DecidableEq, Repr

/-- A non-nil Go `error`, reduced to the text its method `Error()` returns. -/
structure Err where
  Error : String
  deriving DecidableEq, Repr

/-- Go `error`: `none` is `nil`. -/
abbrev error := Option Err

/-- Go `type Sink interface`, given by its method `Append(*Message) error`
acting on the world `W`. -/
abbrev Sink (W : Type) := Message → W → error × W

/-- Go `type TimeSource interface`, given by its method `Now() time.Time`. -/
abbrev TimeSource (W : Type) := W → Time × W

/-- Go `type Filter struct`. -/
structure Filter (W : Type) where
  Sink : Sink W
  Level : Level

/-- Go `type Logger struct`. -/
structure Logger (W : Type) where
  Sinks : List (Sink W)
  TimeSource : TimeSource W

/-- Go `func (filter *Filter) Append(msg *Message) error`. -/
def Filter.Append {W : Type} (filter : Filter W) : Log.Sink W := fun msg w =>
  if msg.Level ≥ filter.Level then
    filter.Sink msg w
  else
    (none, w)

/-- Go `func (*LocalTime) Now() time.Time`: the library clock `time.Now` is a
parameter. -/
def LocalTime.Now {W : Type} (timeNow : TimeSource W) : TimeSource W := timeNow

/-- Go `func New() *Logger`: no sinks, the local clock. -/
def New {W : Type} (timeNow : TimeSource W) : Logger W :=
  { Sinks := [], TimeSource := LocalTime.Now timeNow }

/-- Go `func (logger *Logger) AddSink(level Level, sink Sink)`. -/
def Logger.AddSink {W : Type} (logger : Logger W) (level : Level) (sink : Sink W) :
    Logger W :=
  { logger with Sinks := logger.Sinks ++ [Filter.Append { Sink := sink, Level := level }] }

/-- One when a failure on a message of this level escalates, zero otherwise:
the measure under which the recursion of `Logger.Append` ends. -/
def escalates (level : Level) : Nat := if level < Error then 1 else 0

mutual

/-- Go `func (logger *Logger) Append(msg *Message) error`: the loop, then `nil`. -/
def Logger.Append {W A : Type} (Sprintf : String → List A → String) (logger : Logger W)
    (msg : Message) (w : W) : error × W :=
  (none, Logger.rangeSinks Sprintf logger logger.Sinks msg w)
termination_by (escalates msg.Level, 1, 0)
decreasing_by exact Prod.Lex.right _ (Prod.Lex.left _ _ Nat.zero_lt_one)

/-- The loop `for _, sink := range logger.Sinks` of `Logger.Append`, over the
sinks still to be visited. -/
def Logger.rangeSinks {W A : Type} (Sprintf : String → List A → String) (logger : Logger W)
    (sinks : List (Sink W)) (msg : Message) (w : W) : W :=
  match sinks with
  | [] => w
  | sink :: rest =>
    match sink msg w with
    | (some err, w1) =>
      if _h : msg.Level < Log.Error then
        Logger.rangeSinks Sprintf logger rest msg (Logger.Error Sprintf logger err w1).2
      else
        Logger.rangeSinks Sprintf logger rest msg w1
    | (none, w1) => Logger.rangeSinks Sprintf logger rest msg w1
termination_by (escalates msg.Level, 0, sinks.length)
decreasing_by
  all_goals simp_wf
  all_goals first
    | exact Prod.Lex.right _ (Prod.Lex.right _ (Nat.lt_succ_self _))
    | (simp only [escalates, _h, if_true]; exact Prod.Lex.left _ _ Nat.zero_lt_one)

/-- Go `func (logger *Logger) Appendf(level Level, msg string, args ...interface{}) error`. -/
def Logger.Appendf {W A : Type} (Sprintf : String → List A → String) (logger : Logger W)
    (level : Level) (msg : String) (args : List A) (w : W) : error × W :=
  Logger.Append Sprintf logger
    { Level := level, Time := (logger.TimeSource w).1, Message := Sprintf msg args }
    (logger.TimeSource w).2
termination_by (escalates level, 2, 0)
decreasing_by exact Prod.Lex.right _ (Prod.Lex.left _ _ (by decide))

/-- Go `func (logger *Logger) Errorf(msg string, args ...interface{}) error`. -/
def Logger.Errorf {W A : Type} (Sprintf : String → List A → String) (logger : Logger W)
    (msg : String) (args : List A) (w : W) : error × W :=
  Logger.Appendf Sprintf logger Log.Error msg args w
termination_by (0, 3, 0)
decreasing_by
  simp only [escalates, Error]
  exact Prod.Lex.right _ (Prod.Lex.left _ _ (by decide))

/-- Go `func (logger *Logger) Error(err error) error`, for a non-nil `err`:
the text of the error is passed as the format, with no operands. -/
def Logger.Error {W A : Type} (Sprintf : String → List A → String) (logger : Logger W)
    (err : Err) (w : W) : error × W :=
  Logger.Errorf Sprintf logger err.Error [] w
termination_by (0, 4, 0)
decreasing_by exact Prod.Lex.right _ (Prod.Lex.left _ _ (by decide))

end

/-- Go `func (logger *Logger) Trace(msg string, args ...interface{}) error`. -/
def Logger.Trace {W A : Type} (Sprintf : String → List A → String) (logger : Logger W)
    (msg : String) (args : List A) (w : W) : error × W :=
  Logger.Appendf Sprintf logger Log.Trace msg args w

/-- Go `func (logger *Logger) Info(msg string, args ...interface{}) error`. -/
def Logger.Info {W A : Type} (Sprintf : String → List A → String) (logger : Logger W)
    (msg : String) (args : List A) (w : W) : error × W :=
  Logger.Appendf Sprintf logger Log.Info msg args w

/-! ## The test doubles of `log_test.go`, and an observable world -/

/-- What can be observed of a run: a sink was handed a message, or the clock
was read and answered `t`. -/
inductive Event where
  | append (sink : Nat) (msg : Message)
  | now (t : Time)
  deriving DecidableEq, Repr

/-- A world that records, next to the state `σ` of the sinks and the clock,
the calls made to them, oldest first. -/
structure World (σ : Type) where
  state : σ
  trace : List Event

/-- A sink that records every message it is handed under its name `id`, as
`MockSink` does in `mock.Messages`, and then succeeds or fails as `behaviour`
decides from the message and the state. -/
def Probe {σ : Type} (id : Nat) (behaviour : Message → σ → error × σ) : Sink (World σ) :=
  fun msg w =>
    ((behaviour msg w.state).1,
      { state := (behaviour msg w.state).2, trace := w.trace ++ [Event.append id msg] })

/-- Go `func (mock *MockSink) Append(msg *Message) error` of `log_test.go`:
records the message and returns the configured `mock.Error`. -/
def MockSink.Append {σ : Type} (id : Nat) (Error : error) : Sink (World σ) :=
  Probe id (fun _ s => (Error, s))

/-- A clock whose readings are recorded: `clock` answers from the state. -/
def ProbeClock {σ : Type} (clock : σ → Time × σ) : TimeSource (World σ) :=
  fun w =>
    ((clock w.state).1,
      { state := (clock w.state).2, trace := w.trace ++ [Event.now (clock w.state).1] })

/-- Go `func (fixed *FixedTime) Now() time.Time` of `log_test.go`. -/
def FixedTime.Now {W : Type} (Time : Time) : TimeSource W := fun w => (Time, w)

/-- The messages sink `id` was handed, oldest first: `mock.Messages`. -/
def received (id : Nat) : List Event → List Message
  | [] => []
  | Event.append sink msg :: rest =>
    if sink = id then msg :: received id rest else received id rest
  | Event.now _ :: rest => received id rest

/-- One call `AddSink(Level, sink)` where the sink is a probe. -/
structure Registration (σ : Type) where
  Level : Level
  id : Nat
  behaviour : Message → σ → error × σ

/-- The element `AddSink` stores for a registration: the probe behind a filter. -/
def Registration.filter {σ : Type} (r : Registration σ) : Sink (World σ) :=
  Filter.Append { Sink := Probe r.id r.behaviour, Level := r.Level }

/-- A sequence of calls `logger.AddSink(level, sink)`, in order. -/
def Logger.AddSinks {W : Type} (logger : Logger W) : List (Level × Sink W) → Logger W
  | [] => logger
  | r :: rest => Logger.AddSinks (logger.AddSink r.1 r.2) rest

/-- The logger obtained by registering the probes `regs`, in order, on a logger
with no sinks. -/
def Logger.ofRegistrations {σ : Type} (timeSource : Log.TimeSource (World σ))
    (regs : List (Registration σ)) : Logger (World σ) :=
  Logger.AddSinks { Sinks := [], TimeSource := timeSource }
    (regs.map (fun r => (r.Level, Probe r.id r.behaviour)))

/-- The calls a pass over the registrations makes when it hands `msg` to every
filter and nothing else happens: one call to each probe whose threshold the
level of `msg` reaches, in order. -/
def deliveries {σ : Type} (regs : List (Registration σ)) (msg : Message) : List Event :=
  (regs.filter (fun r => decide (r.Level ≤ msg.Level))).map (fun r => Event.append r.id msg)

/-- Whether the event is a sink being handed `msg`. -/
def Event.carries (msg : Message) : Event → Bool
  | Event.append _ m => decide (m = msg)
  | Event.now _ => false

/-- The body of the loop of `Logger.Append` for the sink `sink`: the world once
the sink was called and, if it failed on a message below Error, `logger.Error`
has run. -/
def Logger.iteration {W A : Type} (Sprintf : String → List A → String) (logger : Logger W)
    (sink : Sink W) (msg : Message) (w : W) : W :=
  match (sink msg w).1 with
  | some err =>
    if msg.Level < Log.Error then (Logger.Error Sprintf logger err (sink msg w).2).2
    else (sink msg w).2
  | none => (sink msg w).2

/-- The messages sink `id` was handed since the trace was `old`. -/
def receivedSince (id : Nat) (old new : List Event) : List Message :=
  received id (new.drop old.length)

/-- The trace `new` extends `old`, and every message handed to a sink since
`old` carries the time `t0`. -/
def Stamped (t0 : Time) (old new : List Event) : Prop :=
  ∃ delta, new = old ++ delta ∧ ∀ id m, Event.append id m ∈ delta → m.Time = t0

/-- A probe that fails on every call with the error text `text`. -/
def failing (Level : Level) (id : Nat) (text : String) : Registration Unit :=
  { Level := Level, id := id, behaviour := fun _ s => (some { Error := text }, s) }

/-- A probe that succeeds on every call. -/
def succeeding (Level : Level) (id : Nat) : Registration Unit :=
  { Level := Level, id := id, behaviour := fun _ s => (none, s) }

/-- A recorded clock that always answers `t`. -/
def steadyClock (t : Time) : Log.TimeSource (World Unit) := ProbeClock (fun s => (t, s))

/-- The world before anything was logged. -/
def World.start : World Unit := { state := (), trace := [] }

/-- The message of `TestLoggerPropagate`, at time 0. -/
def infoMessage : Message := { Level := Info, Time := 0, Message := "nothing serious" }

/-- A clock over a counter: a reading answers the counter and advances it. -/
def tickingClock : Nat → Time × Nat := fun s => (s, s + 1)

/-- A probe next to the ticking clock that fails on every call and leaves the
counter alone. -/
def tickFailing (Level : Level) (id : Nat) (text : String) : Registration Nat :=
  { Level := Level, id := id, behaviour := fun _ s => (some { Error := text }, s) }

/-- A probe next to the ticking clock that succeeds on every call. -/
def tickSucceeding (Level : Level) (id : Nat) : Registration Nat :=
  { Level := Level, id := id, behaviour := fun _ s => (none, s) }

/-- Three probes: the first and the third fail, the second succeeds. -/
def mixedProbes : List (Registration Unit) :=
  [failing Trace 1 "no more space", succeeding Info 2, failing Info 3 "broken pipe"]

/-- The trace `new` extends `old`, and no message handed to a sink since `old`
carries a time before `t0`. -/
def NotBefore (t0 : Time) (old new : List Event) : Prop :=
  ∃ delta, new = old ++ delta ∧ ∀ id m, Event.append id m ∈ delta → t0 ≤ m.Time

/-! ## Rendering a level (`log.go`) -/

/-- Go `func (level Level) String() string`. -/
def Level.String (level : Level) : String :=
  if level = Trace then "TRACE"
  else if level = Info then "INFO"
  else if level = Error then "ERROR"
  else "NONE"

/-! ## The stream sink (`std.go`) -/

/-- The bytes of a Go string: the text in UTF-8. -/
def goBytes (text : String) : List UInt8 := text.toUTF8.data.toList

/-- Go `type Std struct`: the reused buffer.  The mutex has no counterpart in a
sequential run. -/
structure Std where
  buf : List UInt8

/-- Go `func (s *Std) Write(msg string) error`; `write` is `os.Stderr.Write`,
which is handed the buffer and may fail.  The result carries the sink with its
buffer as the call leaves it. -/
def Std.Write {W : Type} (write : List UInt8 → W → error × W) (s : Std) (msg : String)
    (w : W) : error × Std × W :=
  let buf0 := s.buf.take 0
  let buf1 := buf0 ++ goBytes msg
  let buf2 :=
    if (goBytes msg).length = 0 ∨ (goBytes msg)[(goBytes msg).length - 1]? ≠ some 10 then
      buf1 ++ [10]
    else buf1
  match write buf2 w with
  | (some err, w1) => (some err, { buf := buf2 }, w1)
  | (none, w1) => (none, { buf := buf2 }, w1)

/-- Go `func (s *Std) Append(msg *Message) error`. -/
def Std.Append {W : Type} (write : List UInt8 → W → error × W) (s : Std) (msg : Message)
    (w : W) : error × Std × W :=
  Std.Write write s msg.Message w

/-- The line the specification asks of the stream sink: the text itself if it
is non-empty and ends with a line feed, the text followed by one line feed
otherwise. -/
def specLine (text : List UInt8) : List UInt8 :=
  if text ≠ [] ∧ text.getLast? = some 10 then text else text ++ [10]

/-- An error stream that keeps what it is handed, chunk by chunk, and accepts
every write. -/
def recordingStderr : List UInt8 → List (List UInt8) → error × List (List UInt8) :=
  fun chunk written => (none, written ++ [chunk])

/-! ## Counting the calls to the registered sinks -/

/-- The sink with a counter next to its world: each call adds one. -/
def Counted.sink {W : Type} (sink : Sink W) : Sink (W × Nat) :=
  fun msg u => ((sink msg u.1).1, ((sink msg u.1).2, u.2 + 1))

/-- The clock next to the counter, which it leaves alone. -/
def Counted.clock {W : Type} (timeSource : TimeSource W) : TimeSource (W × Nat) :=
  fun u => ((timeSource u.1).1, ((timeSource u.1).2, u.2))

/-- The logger whose sinks are counted. -/
def Counted.logger {W : Type} (logger : Logger W) : Logger (W × Nat) :=
  { Sinks := logger.Sinks.map Counted.sink, TimeSource := Counted.clock logger.TimeSource }

/-! ## A logger among the sinks of a logger -/

/-- The logger obtained by registering, in order, the probes `pre`, then the
sink `inner` at threshold `T`, then the probes `post`. -/
def Logger.ofRegistrationsAround {σ : Type} (timeSource : Log.TimeSource (World σ))
    (pre : List (Registration σ)) (T : Log.Level) (inner : Log.Sink (World σ))
    (post : List (Registration σ)) : Logger (World σ) :=
  Logger.AddSinks { Sinks := [], TimeSource := timeSource }
    (pre.map (fun r => (r.Level, Probe r.id r.behaviour))
      ++ (T, inner) :: post.map (fun r => (r.Level, Probe r.id r.behaviour)))

/-! ## A model of `fmt.Sprintf` on a fragment of its format language -/

/-- The characters that, right after a percent sign, start a flag, a width, a
precision or an operand index: directives the fragment leaves out. -/
def fmtOutside : List Char := "#0+- 123456789.*[".data

/-- The Go library `fmt`, `(*pp).doPrintf`, for string operands and directives
made of a percent sign and the verb alone: text is copied; `%%` gives a percent
sign; a percent sign that ends the format gives `%!(NOVERB)`; a verb with no
operand left gives `%!c(MISSING)`; the verbs `s` and `v` print the operand; a
verb that Go rejects for a string gives `%!c(string=operand)`; operands left
over give `%!(EXTRA string=..., ...)`.  The answer is `none` on a format outside
the fragment: a flag, width, precision or index after the percent sign, or one
of the verbs `q`, `x`, `X`, `T` applied to an operand. -/
def doPrintf : List Char → List String → Option (List Char)
  | [], [] => some []
  | [], a :: args =>
    some ("%!(EXTRA ".data ++
      (", ".intercalate ((a :: args).map (fun x => "string=" ++ x))).data ++ ")".data)
  | [c], args =>
    if c = '%' then (doPrintf [] args).map (fun out => "%!(NOVERB)".data ++ out)
    else (doPrintf [] args).map (fun out => c :: out)
  | c :: v :: rest, args =>
    if c = '%' then
      if v = '%' then (doPrintf rest args).map (fun out => '%' :: out)
      else if v ∈ fmtOutside then none
      else
        match args with
        | [] => (doPrintf rest []).map (fun out => "%!".data ++ v :: "(MISSING)".data ++ out)
        | a :: more =>
          if v = 's' ∨ v = 'v' then (doPrintf rest more).map (fun out => a.data ++ out)
          else if v ∈ "qxXT".data then none
          else (doPrintf rest more).map
            (fun out => "%!".data ++ v :: "(string=".data ++ a.data ++ ")".data ++ out)
    else (doPrintf (v :: rest) args).map (fun out => c :: out)

/-- Go `fmt.Sprintf` on the fragment of `doPrintf`; the empty string stands in
for the formats outside it. -/
def fmtSprintf (format : String) (args : List String) : String :=
  match doPrintf format.data args with
  | some out => String.mk out
  | none => ""

/-! ## Unfolding the logger -/

theorem Logger.Append_eq {W A : Type} (Sprintf : String → List A → String)
    (logger : Logger W) (msg : Message) (w : W) :
    Logger.Append Sprintf logger msg w
      = (none, Logger.rangeSinks Sprintf logger logger.Sinks msg w) := by
  rw [Logger.Append]

theorem Logger.rangeSinks_nil {W A : Type} (Sprintf : String → List A → String)
    (logger : Logger W) (msg : Message) (w : W) :
    Logger.rangeSinks Sprintf logger [] msg w = w := by
  rw [Logger.rangeSinks]

theorem Logger.Error_eq {W A : Type} (Sprintf : String → List A → String)
    (logger : Logger W) (err : Err) (w : W) :
    Logger.Error Sprintf logger err w
      = Logger.Append Sprintf logger
          { Level := Log.Error, Time := (logger.TimeSource w).1,
            Message := Sprintf err.Error [] }
          (logger.TimeSource w).2 := by
  rw [Logger.Error, Logger.Errorf, Logger.Appendf]

theorem Logger.rangeSinks_cons {W A : Type} (Sprintf : String → List A → String)
    (logger : Logger W) (sink : Sink W) (rest : List (Sink W)) (msg : Message) (w : W) :
    Logger.rangeSinks Sprintf logger (sink :: rest) msg w
      = Logger.rangeSinks Sprintf logger rest msg
          (match (sink msg w).1 with
           | some err =>
             if msg.Level < Log.Error then (Logger.Error Sprintf logger err (sink msg w).2).2
             else (sink msg w).2
           | none => (sink msg w).2) := by
  rw [Logger.rangeSinks]
  rcases h : sink msg w with ⟨e, w1⟩
  cases e with
  | none => simp
  | some err =>
    by_cases hl : msg.Level < Log.Error
    · simp [hl]
    · simp [hl]

theorem Logger.rangeSinks_append {W A : Type} (Sprintf : String → List A → String)
    (logger : Logger W) (xs ys : List (Sink W)) (msg : Message) (w : W) :
    Logger.rangeSinks Sprintf logger (xs ++ ys) msg w
      = Logger.rangeSinks Sprintf logger ys msg (Logger.rangeSinks Sprintf logger xs msg w) := by
  induction xs generalizing w with
  | nil => simp [Logger.rangeSinks_nil]
  | cons x xs ih => simp only [List.cons_append, Logger.rangeSinks_cons, ih]

/-- When failures do not escalate, the loop is a plain fold over the sinks. -/
theorem Logger.rangeSinks_of_not_lt {W A : Type} (Sprintf : String → List A → String)
    (logger : Logger W) (sinks : List (Sink W)) (msg : Message)
    (h : ¬ msg.Level < Log.Error) (w : W) :
    Logger.rangeSinks Sprintf logger sinks msg w
      = sinks.foldl (fun v sink => (sink msg v).2) w := by
  induction sinks generalizing w with
  | nil => simp [Logger.rangeSinks_nil]
  | cons x xs ih =>
    rw [Logger.rangeSinks_cons, ih, List.foldl_cons]
    cases (x msg w).1 <;> simp [h]

theorem Logger.AddSinks_Sinks {W : Type} (logger : Logger W) (regs : List (Level × Sink W)) :
    (logger.AddSinks regs).Sinks
      = logger.Sinks ++ regs.map (fun r => Filter.Append { Sink := r.2, Level := r.1 }) := by
  induction regs generalizing logger with
  | nil => simp [Logger.AddSinks]
  | cons r rest ih => simp [Logger.AddSinks, ih, Logger.AddSink]

theorem Logger.AddSinks_TimeSource {W : Type} (logger : Logger W)
    (regs : List (Level × Sink W)) :
    (logger.AddSinks regs).TimeSource = logger.TimeSource := by
  induction regs generalizing logger with
  | nil => simp [Logger.AddSinks]
  | cons r rest ih => simp [Logger.AddSinks, ih, Logger.AddSink]

theorem Logger.ofRegistrations_Sinks {σ : Type} (timeSource : Log.TimeSource (World σ))
    (regs : List (Registration σ)) :
    (Logger.ofRegistrations timeSource regs).Sinks = regs.map Registration.filter := by
  simp [Logger.ofRegistrations, Logger.AddSinks_Sinks, Registration.filter, Function.comp_def]

theorem Logger.ofRegistrations_TimeSource {σ : Type} (timeSource : Log.TimeSource (World σ))
    (regs : List (Registration σ)) :
    (Logger.ofRegistrations timeSource regs).TimeSource = timeSource := by
  simp [Logger.ofRegistrations, Logger.AddSinks_TimeSource]

theorem Logger.rangeSinks_cons_iteration {W A : Type} (Sprintf : String → List A → String)
    (logger : Logger W) (sink : Sink W) (rest : List (Sink W)) (msg : Message) (w : W) :
    Logger.rangeSinks Sprintf logger (sink :: rest) msg w
      = Logger.rangeSinks Sprintf logger rest msg
          (Logger.iteration Sprintf logger sink msg w) := by
  rw [Logger.rangeSinks_cons, Logger.iteration]

/-! ## Traces of a logger of probes -/

theorem deliveries_nil {σ : Type} (msg : Message) :
    deliveries ([] : List (Registration σ)) msg = [] := rfl

theorem deliveries_cons {σ : Type} (r : Registration σ) (regs : List (Registration σ))
    (msg : Message) :
    deliveries (r :: regs) msg
      = (if r.Level ≤ msg.Level then [Event.append r.id msg] else []) ++ deliveries regs msg := by
  by_cases h : r.Level ≤ msg.Level <;> simp [deliveries, List.filter_cons, h]

theorem deliveries_append {σ : Type} (xs ys : List (Registration σ)) (msg : Message) :
    deliveries (xs ++ ys) msg = deliveries xs msg ++ deliveries ys msg := by
  simp [deliveries]

theorem mem_deliveries {σ : Type} (regs : List (Registration σ)) (msg : Message) (e : Event) :
    e ∈ deliveries regs msg ↔ ∃ r ∈ regs, r.Level ≤ msg.Level ∧ e = Event.append r.id msg := by
  simp only [deliveries, List.mem_map, List.mem_filter, decide_eq_true_eq]
  constructor
  · rintro ⟨r, ⟨hr, hl⟩, rfl⟩
    exact ⟨r, hr, hl, rfl⟩
  · rintro ⟨r, hr, hl, rfl⟩
    exact ⟨r, ⟨hr, hl⟩, rfl⟩

theorem deliveries_filter_carries_self {σ : Type} (regs : List (Registration σ))
    (msg : Message) :
    (deliveries regs msg).filter (Event.carries msg) = deliveries regs msg := by
  apply List.filter_eq_self.mpr
  intro e he
  obtain ⟨r, -, -, rfl⟩ := (mem_deliveries regs msg e).mp he
  simp [Event.carries]

theorem deliveries_filter_carries_other {σ : Type} (regs : List (Registration σ))
    (msg other : Message) (h : other ≠ msg) :
    (deliveries regs other).filter (Event.carries msg) = [] := by
  apply List.filter_eq_nil_iff.mpr
  intro e he
  obtain ⟨r, -, -, rfl⟩ := (mem_deliveries regs other e).mp he
  simp [Event.carries, h]

theorem Registration.filter_eq {σ : Type} (r : Registration σ) (msg : Message)
    (w : World σ) :
    r.filter msg w
      = if r.Level ≤ msg.Level then
          ((r.behaviour msg w.state).1,
            { state := (r.behaviour msg w.state).2,
              trace := w.trace ++ [Event.append r.id msg] })
        else (none, w) := by
  simp [Registration.filter, Filter.Append, Probe]

/-- An iteration in which nothing escalates leaves the call to the probe, if
the filter lets the message through, and nothing else. -/
theorem Logger.iteration_quiet {σ A : Type} (Sprintf : String → List A → String)
    (logger : Logger (World σ)) (r : Registration σ) (msg : Message) (w : World σ)
    (h : ¬ (msg.Level < Log.Error ∧ r.Level ≤ msg.Level
            ∧ (r.behaviour msg w.state).1 ≠ none)) :
    (Logger.iteration Sprintf logger r.filter msg w).trace
      = w.trace ++ deliveries [r] msg := by
  rw [Logger.iteration, Registration.filter_eq, deliveries_cons, deliveries_nil]
  by_cases hl : r.Level ≤ msg.Level
  · simp only [hl, if_true]
    cases hb : (r.behaviour msg w.state).1 with
    | none => simp
    | some err =>
      have hlt : ¬ msg.Level < Log.Error := fun hlt => h ⟨hlt, hl, by simp [hb]⟩
      simp [hlt]
  · simp [hl]

/-- A pass in which nothing escalates, because the level is not below Error or
because no probe fails, makes exactly the calls of `deliveries`. -/
theorem Logger.rangeSinks_quiet {σ A : Type} (Sprintf : String → List A → String)
    (logger : Logger (World σ)) (regs : List (Registration σ)) (msg : Message)
    (h : ¬ msg.Level < Log.Error ∨ ∀ r ∈ regs, ∀ m s, (r.behaviour m s).1 = none)
    (w : World σ) :
    (Logger.rangeSinks Sprintf logger (regs.map Registration.filter) msg w).trace
      = w.trace ++ deliveries regs msg := by
  induction regs generalizing w with
  | nil => simp [Logger.rangeSinks_nil, deliveries_nil]
  | cons r rest ih =>
    have hrest : ¬ msg.Level < Log.Error ∨ ∀ r ∈ rest, ∀ m s, (r.behaviour m s).1 = none := by
      rcases h with h | h
      · exact Or.inl h
      · exact Or.inr (fun x hx => h x (List.mem_cons_of_mem _ hx))
    rw [List.map_cons, Logger.rangeSinks_cons_iteration, ih hrest, Logger.iteration_quiet,
      deliveries_cons r rest, deliveries_cons r [], deliveries_nil]
    · simp
    · rintro ⟨hlt, -, hne⟩
      rcases h with h | h
      · exact h hlt
      · exact hne (h r (List.mem_cons_self _ _) _ _)

/-- The world after the escalation that follows a failure: the clock is read in
the world `w1` the failing sink left, and the Error message built from the
reading and the formatted error text goes through one pass that cannot
escalate. -/
theorem Logger.Error_trace {σ A : Type} (Sprintf : String → List A → String)
    (timeSource : Log.TimeSource (World σ)) (regs : List (Registration σ)) (err : Err)
    (w1 : World σ) :
    (Logger.Error Sprintf (Logger.ofRegistrations timeSource regs) err w1).2.trace
      = (timeSource w1).2.trace
          ++ deliveries regs
              { Level := Log.Error, Time := (timeSource w1).1,
                Message := Sprintf err.Error [] } := by
  rw [Logger.Error_eq, Logger.Append_eq, Logger.ofRegistrations_Sinks,
    Logger.ofRegistrations_TimeSource]
  exact Logger.rangeSinks_quiet Sprintf _ regs _ (Or.inl (lt_irrefl _)) _

/-- An iteration in which the probe fails on a message below Error: the call,
then the escalation. -/
theorem Logger.iteration_escalates {σ A : Type} (Sprintf : String → List A → String)
    (timeSource : Log.TimeSource (World σ)) (regs : List (Registration σ))
    (r : Registration σ) (msg : Message) (w : World σ) (err : Err)
    (hlt : msg.Level < Log.Error) (hl : r.Level ≤ msg.Level)
    (hb : (r.behaviour msg w.state).1 = some err) :
    (Logger.iteration Sprintf (Logger.ofRegistrations timeSource regs) r.filter msg w).trace
      = (timeSource { state := (r.behaviour msg w.state).2,
                      trace := w.trace ++ [Event.append r.id msg] }).2.trace
          ++ deliveries regs
              { Level := Log.Error,
                Time := (timeSource { state := (r.behaviour msg w.state).2,
                                      trace := w.trace ++ [Event.append r.id msg] }).1,
                Message := Sprintf err.Error [] } := by
  rw [Logger.iteration, Registration.filter_eq]
  simp only [hl, if_true, hb, hlt]
  exact Logger.Error_trace Sprintf timeSource regs err _

/-! ## The filter -/

/-- C1: a Filter with threshold `T` hands a message of level `L` to its child,
exactly once, if and only if `L ≥ T`: for any child the call is the child's call
when `L ≥ T` and leaves the world untouched, returning nil, when `L < T`; for a
recording child the trace grows by exactly the one call if and only if `L ≥ T`,
and does not grow at all when `L < T`. -/
theorem Filter.Append_forwards_iff {W σ : Type} (T : Log.Level) (child : Log.Sink W)
    (msg : Message) (w : W) (id : Nat) (behaviour : Message → σ → error × σ) (v : World σ) :
    (T ≤ msg.Level → Filter.Append { Sink := child, Level := T } msg w = child msg w) ∧
    (msg.Level < T → Filter.Append { Sink := child, Level := T } msg w = (none, w)) ∧
    ((Filter.Append { Sink := Probe id behaviour, Level := T } msg v).2.trace
        = v.trace ++ [Event.append id msg] ↔ T ≤ msg.Level) ∧
    (msg.Level < T →
      (Filter.Append { Sink := Probe id behaviour, Level := T } msg v).2.trace = v.trace) := by
  refine ⟨?_, ?_, ?_, ?_⟩
  · intro h
    simp [Filter.Append, h]
  · intro h
    simp [Filter.Append, not_le.mpr h]
  · by_cases h : T ≤ msg.Level
    · simp [Filter.Append, h, Probe]
    · simp [Filter.Append, h]
  · intro h
    simp [Filter.Append, not_le.mpr h]

/-! ## Return values of the logger -/

/-- C2: `Logger.Append` returns nil for every logger, whatever its sinks do, and
so do `Appendf`, `Trace`, `Info`, `Errorf` and `Error`. -/
theorem Logger.Append_returns_nil {W A : Type} (Sprintf : String → List A → String)
    (logger : Logger W) (msg : Message) (level : Level) (format : String) (args : List A)
    (err : Err) (w : W) :
    (Logger.Append Sprintf logger msg w).1 = none ∧
    (Logger.Appendf Sprintf logger level format args w).1 = none ∧
    (Logger.Trace Sprintf logger format args w).1 = none ∧
    (Logger.Info Sprintf logger format args w).1 = none ∧
    (Logger.Errorf Sprintf logger format args w).1 = none ∧
    (Logger.Error Sprintf logger err w).1 = none := by
  have hf : ∀ lv, (Logger.Appendf Sprintf logger lv format args w).1 = none := by
    intro lv
    rw [Logger.Appendf, Logger.Append_eq]
  refine ⟨?_, hf level, ?_, ?_, ?_, ?_⟩
  · rw [Logger.Append_eq]
  · exact hf Log.Trace
  · exact hf Log.Info
  · rw [Logger.Errorf]
    exact hf Log.Error
  · rw [Logger.Error_eq, Logger.Append_eq]

/-! ## Registration -/

/-- C10: `AddSink(T, s)` keeps the registered sinks and their order, appends one
element, the Filter with threshold `T` around `s`, and keeps the TimeSource;
after a sequence of AddSink calls on `New()` the sinks are exactly the filters
of the calls, in call order. -/
theorem Logger.AddSink_appends_filter {W : Type} (logger : Logger W) (T : Level)
    (s : Sink W) (timeNow : Log.TimeSource W) (regs : List (Level × Sink W)) :
    (logger.AddSink T s).Sinks = logger.Sinks ++ [Filter.Append { Sink := s, Level := T }] ∧
    (logger.AddSink T s).TimeSource = logger.TimeSource ∧
    ((New timeNow).AddSinks regs).Sinks
      = regs.map (fun r => Filter.Append { Sink := r.2, Level := r.1 }) ∧
    ((New timeNow).AddSinks regs).TimeSource = (New timeNow).TimeSource := by
  refine ⟨rfl, rfl, ?_, Logger.AddSinks_TimeSource _ _⟩
  rw [Logger.AddSinks_Sinks]
  simp [New]

/-! ## Fan-out by threshold -/

/-- Among the calls of a pass, those that hand over `msg` itself are one call per
registration whose threshold the level reaches, in registration order. -/
theorem Logger.rangeSinks_carries {σ A : Type} (Sprintf : String → List A → String)
    (clock : σ → Time × σ) (all regs : List (Registration σ)) (msg : Message)
    (w : World σ) :
    ∃ delta,
      (Logger.rangeSinks Sprintf (Logger.ofRegistrations (ProbeClock clock) all)
          (regs.map Registration.filter) msg w).trace = w.trace ++ delta
      ∧ delta.filter (Event.carries msg) = deliveries regs msg := by
  induction regs generalizing w with
  | nil => exact ⟨[], by simp [Logger.rangeSinks_nil], rfl⟩
  | cons r rest ih =>
    rw [List.map_cons, Logger.rangeSinks_cons_iteration]
    obtain ⟨d, hd, hf⟩ := ih (Logger.iteration Sprintf
      (Logger.ofRegistrations (ProbeClock clock) all) r.filter msg w)
    have hbody : ∃ d0,
        (Logger.iteration Sprintf (Logger.ofRegistrations (ProbeClock clock) all)
          r.filter msg w).trace = w.trace ++ d0
        ∧ d0.filter (Event.carries msg) = deliveries [r] msg := by
      by_cases hc : msg.Level < Log.Error ∧ r.Level ≤ msg.Level
          ∧ (r.behaviour msg w.state).1 ≠ none
      · obtain ⟨hlt, hl, hne⟩ := hc
        obtain ⟨err, hb⟩ := Option.ne_none_iff_exists'.mp hne
        refine ⟨Event.append r.id msg
            :: Event.now (clock (r.behaviour msg w.state).2).1
            :: deliveries all { Level := Log.Error,
                                Time := (clock (r.behaviour msg w.state).2).1,
                                Message := Sprintf err.Error [] }, ?_, ?_⟩
        · rw [Logger.iteration_escalates Sprintf _ all r msg w err hlt hl hb]
          simp [ProbeClock]
        · have hne : ({ Level := Log.Error, Time := (clock (r.behaviour msg w.state).2).1,
                        Message := Sprintf err.Error [] } : Message) ≠ msg := by
            intro he
            rw [← he] at hlt
            exact lt_irrefl _ hlt
          rw [List.filter_cons, List.filter_cons,
            deliveries_filter_carries_other all msg _ hne]
          simp [Event.carries, deliveries_cons, deliveries_nil, hl]
      · exact ⟨deliveries [r] msg, Logger.iteration_quiet Sprintf _ r msg w hc,
          deliveries_filter_carries_self _ _⟩
    obtain ⟨d0, hd0, hf0⟩ := hbody
    refine ⟨d0 ++ d, ?_, ?_⟩
    · rw [hd, hd0, List.append_assoc]
    · rw [List.filter_append, hf0, hf, ← deliveries_append]
      rfl

/-- C3: for a logger whose sinks were registered with AddSink at thresholds
`T1..Tn`, whatever the sinks and the clock do and whether or not sinks fail, the
calls of `Logger.Append` that hand over the message `m` of level `L` are exactly
one call to each registered sink with `Ti ≤ L`, in registration order; no other
registered sink is handed `m`. -/
theorem Logger.Append_delivers_by_threshold {σ A : Type}
    (Sprintf : String → List A → String) (clock : σ → Time × σ)
    (regs : List (Registration σ)) (msg : Message) (w : World σ) :
    ∃ delta,
      (Logger.Append Sprintf (Logger.ofRegistrations (ProbeClock clock) regs) msg w).2.trace
        = w.trace ++ delta
      ∧ delta.filter (Event.carries msg)
        = (regs.filter (fun r => decide (r.Level ≤ msg.Level))).map
            (fun r => Event.append r.id msg) := by
  rw [Logger.Append_eq, Logger.ofRegistrations_Sinks]
  exact Logger.rangeSinks_carries Sprintf clock regs regs msg w

/-! ## No escalation from Error upwards -/

/-- C5: for a message of level Error or higher, `Logger.Append` is the plain
pass over the registered sinks, each called once with the original message and
independently of the TimeSource; on a logger of recording sinks with a
recording clock, the calls are one call with the original message to each sink
whose threshold the level reaches, and the clock is never read. -/
theorem Logger.Append_no_escalation_from_Error {W σ A : Type}
    (Sprintf : String → List A → String) (logger : Logger W) (msg : Message)
    (h : Log.Error ≤ msg.Level) (w : W) (clock : σ → Time × σ)
    (regs : List (Registration σ)) (v : World σ) :
    Logger.Append Sprintf logger msg w
        = (none, logger.Sinks.foldl (fun u sink => (sink msg u).2) w)
    ∧ (Logger.Append Sprintf (Logger.ofRegistrations (ProbeClock clock) regs) msg v).2.trace
        = v.trace ++ deliveries regs msg
    ∧ (∀ t, Event.now t ∉ deliveries regs msg)
    ∧ (∀ id m, Event.append id m ∈ deliveries regs msg → m = msg) := by
  refine ⟨?_, ?_, ?_, ?_⟩
  · rw [Logger.Append_eq, Logger.rangeSinks_of_not_lt Sprintf logger _ msg (not_lt.mpr h)]
  · rw [Logger.Append_eq, Logger.ofRegistrations_Sinks]
    exact Logger.rangeSinks_quiet Sprintf _ regs msg (Or.inl (not_lt.mpr h)) v
  · intro t ht
    obtain ⟨r, -, -, he⟩ := (mem_deliveries regs msg _).mp ht
    cases he
  · intro id m hm
    obtain ⟨r, -, -, he⟩ := (mem_deliveries regs msg _).mp hm
    cases he
    rfl

/-! ## Escalation after a failure -/

/-- C5 at work: an Error message appended to a logger whose first sink fails;
each sink is called once with the message and nothing else happens. -/
theorem Logger.Append_no_escalation_from_Error_witness :
    (Logger.Append fmtSprintf
        (Logger.ofRegistrations (steadyClock 7)
          [failing Log.Trace 1 "no more space", succeeding Log.Error 2])
        { Level := Log.Error, Time := 3, Message := "disk gone" } World.start).2.trace
      = [Event.append 1 { Level := Log.Error, Time := 3, Message := "disk gone" },
         Event.append 2 { Level := Log.Error, Time := 3, Message := "disk gone" }] :=
  (Logger.Append_no_escalation_from_Error fmtSprintf
      (Logger.ofRegistrations (steadyClock 7)
        [failing Log.Trace 1 "no more space", succeeding Log.Error 2])
      { Level := Log.Error, Time := 3, Message := "disk gone" } (by decide) World.start
      (fun u : Unit => ((7 : Time), u))
      [failing Log.Trace 1 "no more space", succeeding Log.Error 2] World.start).2.1.trans
    (by decide)

/-- C4, as amended: when one registered sink fails on every call, its threshold
is at most the level `L < Error` of the message and the other sinks succeed,
`Logger.Append` reads the clock once and builds one Error message from the
failure; the calls are the fan-out of the original message with, right after
the failing call, one call with the Error message to every registered sink
whose threshold is at most Error, in registration order. -/
theorem Logger.Append_escalates_once {σ A : Type} (Sprintf : String → List A → String)
    (clock : σ → Time × σ) (pre post : List (Registration σ)) (bad : Registration σ)
    (msg : Message) (w : World σ)
    (hlt : msg.Level < Log.Error) (hbad : bad.Level ≤ msg.Level)
    (hfail : ∀ m s, (bad.behaviour m s).1 ≠ none)
    (hpre : ∀ r ∈ pre, ∀ m s, (r.behaviour m s).1 = none)
    (hpost : ∀ r ∈ post, ∀ m s, (r.behaviour m s).1 = none) :
    ∃ (s : σ) (d : Err) (esc : Message),
      (bad.behaviour msg s).1 = some d
      ∧ esc = { Level := Log.Error, Time := (clock (bad.behaviour msg s).2).1,
                Message := Sprintf d.Error [] }
      ∧ (Logger.Append Sprintf
            (Logger.ofRegistrations (ProbeClock clock) (pre ++ bad :: post)) msg w).2.trace
          = w.trace ++ deliveries pre msg
              ++ [Event.append bad.id msg, Event.now esc.Time]
              ++ deliveries (pre ++ bad :: post) esc
              ++ deliveries post msg
      ∧ (∀ r ∈ pre ++ bad :: post, r.Level ≤ Log.Error →
            Event.append r.id esc ∈ deliveries (pre ++ bad :: post) esc) := by
  have h0 := Logger.rangeSinks_quiet Sprintf
    (Logger.ofRegistrations (ProbeClock clock) (pre ++ bad :: post)) pre msg (Or.inr hpre) w
  generalize hw0 : Logger.rangeSinks Sprintf
    (Logger.ofRegistrations (ProbeClock clock) (pre ++ bad :: post))
    (pre.map Registration.filter) msg w = w0 at h0
  obtain ⟨d, hd⟩ := Option.ne_none_iff_exists'.mp (hfail msg w0.state)
  refine ⟨w0.state, d, _, hd, rfl, ?_, ?_⟩
  · have h1 := Logger.iteration_escalates Sprintf (ProbeClock clock) (pre ++ bad :: post)
      bad msg w0 d hlt hbad hd
    rw [Logger.Append_eq, Logger.ofRegistrations_Sinks, List.map_append, List.map_cons,
      Logger.rangeSinks_append, hw0, Logger.rangeSinks_cons_iteration,
      Logger.rangeSinks_quiet Sprintf _ post msg (Or.inr hpost), h1]
    simp [ProbeClock, h0]
  · intro r hr hl
    exact (mem_deliveries _ _ _).mpr ⟨r, hr, hl, rfl⟩

/-- C4, the claim as stated fails twice.  A sink that fails on every call but is
registered at threshold Error is never called with an Info message: no Error
message is produced at all.  And when the sink registered at Trace fails, the
escalation message is not handed to a sink registered above Error (at 3). -/
theorem Logger.Append_escalates_once_counterexample :
    (Logger.Append fmtSprintf
        (Logger.ofRegistrations (steadyClock 7) [failing Log.Error 1 "no more space"])
        { Level := Log.Info, Time := 0, Message := "nothing serious" } World.start).2.trace
      = []
    ∧ (Logger.Append fmtSprintf
        (Logger.ofRegistrations (steadyClock 7)
          [failing Log.Trace 1 "no more space", succeeding 3 2])
        { Level := Log.Info, Time := 0, Message := "nothing serious" } World.start).2.trace
      = [Event.append 1 { Level := Log.Info, Time := 0, Message := "nothing serious" },
         Event.now 7,
         Event.append 1 { Level := Log.Error, Time := 7, Message := "no more space" }] := by
  constructor
  · simp [Logger.ofRegistrations, Logger.AddSinks, Logger.AddSink, Logger.Append_eq,
      Logger.rangeSinks_cons, Logger.rangeSinks_nil, Filter.Append, failing, World.start,
      Log.Info, Log.Error]
  · simp [Logger.ofRegistrations, Logger.AddSinks, Logger.AddSink, Logger.Append_eq,
      Logger.rangeSinks_cons, Logger.rangeSinks_nil, Logger.Error_eq, Filter.Append, Probe,
      ProbeClock, steadyClock, failing, succeeding, World.start, Log.Info, Log.Error,
      Log.Trace]
    decide

/-- C4, the amended statement at work on the scenario of `TestLoggerPropagate`:
the sink registered at Trace fails with "no more space", the sink registered at
Error succeeds, an Info message is appended. -/
theorem Logger.Append_escalates_once_witness :
    (Logger.Append fmtSprintf
        (Logger.ofRegistrations (steadyClock 7)
          [failing Log.Trace 1 "no more space", succeeding Log.Error 2])
        { Level := Log.Info, Time := 0, Message := "nothing serious" } World.start).2.trace
      = [Event.append 1 { Level := Log.Info, Time := 0, Message := "nothing serious" },
         Event.now 7,
         Event.append 1 { Level := Log.Error, Time := 7, Message := "no more space" },
         Event.append 2 { Level := Log.Error, Time := 7, Message := "no more space" }] := by
  obtain ⟨s, d, esc, hd, hesc, htrace, -⟩ :=
    Logger.Append_escalates_once fmtSprintf (fun u : Unit => ((7 : Time), u)) []
      [succeeding Log.Error 2] (failing Log.Trace 1 "no more space")
      { Level := Log.Info, Time := 0, Message := "nothing serious" } World.start
      (by decide) (by decide) (fun _ _ => by simp [failing]) (fun _ h => by simp at h)
      (fun r h => by
        simp only [List.mem_singleton] at h
        subst h
        intro _ _
        rfl)
  cases s
  simp only [failing, Option.some.injEq] at hd
  subst hd
  subst hesc
  refine htrace.trans ?_
  decide

/-- C6: the text of the escalation message is the error description run through
`Sprintf` as a format.  The sink registered at Trace fails with "100%", the
sink registered at Error succeeds, and `Info("nothing serious")` leaves the
second sink with one Error message whose text is "100%!(NOVERB)", not "100%";
with the description "no more space" the text is the description. -/
theorem Logger.escalation_text_is_formatted :
    received 2 (Logger.Info fmtSprintf
        (Logger.ofRegistrations (steadyClock 7)
          [failing Log.Trace 1 "100%", succeeding Log.Error 2])
        "nothing serious" [] World.start).2.trace
      = [{ Level := Log.Error, Time := 7, Message := "100%!(NOVERB)" }]
    ∧ received 2 (Logger.Info fmtSprintf
        (Logger.ofRegistrations (steadyClock 7)
          [failing Log.Trace 1 "no more space", succeeding Log.Error 2])
        "nothing serious" [] World.start).2.trace
      = [{ Level := Log.Error, Time := 7, Message := "no more space" }] := by
  constructor
  · simp [Logger.ofRegistrations, Logger.AddSinks, Logger.AddSink, Logger.Info,
      Logger.Appendf, Logger.Append_eq, Logger.rangeSinks_cons, Logger.rangeSinks_nil,
      Logger.Error_eq, Filter.Append, Probe, ProbeClock, steadyClock, failing, succeeding,
      World.start, Log.Info, Log.Error, Log.Trace, received]
    decide
  · simp [Logger.ofRegistrations, Logger.AddSinks, Logger.AddSink, Logger.Info,
      Logger.Appendf, Logger.Append_eq, Logger.rangeSinks_cons, Logger.rangeSinks_nil,
      Logger.Error_eq, Filter.Append, Probe, ProbeClock, steadyClock, failing, succeeding,
      World.start, Log.Info, Log.Error, Log.Trace, received]
    decide

/-! ## The helpers `Trace`, `Info`, `Errorf`, `Error` -/

/-- C7: `Logger.Error(err)` routes one Error message whose text is the error
description run through `Sprintf` as a format.  For the description "100%" the
sink is handed the text "100%!(NOVERB)", not "100%"; for "error message" the
sink is handed the message that `Errorf("error %s", "message")` hands it. -/
theorem Logger.Error_text_is_formatted :
    (Logger.Error fmtSprintf (Logger.ofRegistrations (FixedTime.Now 7) [succeeding Log.Trace 1])
        { Error := "100%" } World.start).2.trace
      = [Event.append 1 { Level := Log.Error, Time := 7, Message := "100%!(NOVERB)" }]
    ∧ (Logger.Error fmtSprintf
        (Logger.ofRegistrations (FixedTime.Now 7) [succeeding Log.Trace 1])
        { Error := "error message" } World.start).2.trace
      = [Event.append 1 { Level := Log.Error, Time := 7, Message := "error message" }]
    ∧ (Logger.Errorf fmtSprintf
        (Logger.ofRegistrations (FixedTime.Now 7) [succeeding Log.Trace 1])
        "error %s" ["message"] World.start).2.trace
      = [Event.append 1 { Level := Log.Error, Time := 7, Message := "error message" }] := by
  refine ⟨?_, ?_, ?_⟩
  · simp [Logger.ofRegistrations, Logger.AddSinks, Logger.AddSink, Logger.Append_eq,
      Logger.rangeSinks_cons, Logger.rangeSinks_nil, Logger.Error_eq, Filter.Append, Probe,
      FixedTime.Now, succeeding, World.start, Log.Error, Log.Trace]
    decide
  · simp [Logger.ofRegistrations, Logger.AddSinks, Logger.AddSink, Logger.Append_eq,
      Logger.rangeSinks_cons, Logger.rangeSinks_nil, Logger.Error_eq, Filter.Append, Probe,
      FixedTime.Now, succeeding, World.start, Log.Error, Log.Trace]
    decide
  · simp [Logger.ofRegistrations, Logger.AddSinks, Logger.AddSink, Logger.Errorf,
      Logger.Appendf, Logger.Append_eq, Logger.rangeSinks_cons, Logger.rangeSinks_nil,
      Filter.Append, Probe, FixedTime.Now, succeeding, World.start, Log.Error, Log.Trace]
    decide

theorem received_append (id : Nat) (xs ys : List Event) :
    received id (xs ++ ys) = received id xs ++ received id ys := by
  induction xs with
  | nil => rfl
  | cons e rest ih =>
    cases e with
    | append sink m =>
      by_cases h : sink = id <;> simp [received, h, ih]
    | now t => simp [received, ih]

theorem received_deliveries_of_ne {σ : Type} (id : Nat) (regs : List (Registration σ))
    (msg : Message) (h : ∀ x ∈ regs, x.id ≠ id) :
    received id (deliveries regs msg) = [] := by
  induction regs with
  | nil => rfl
  | cons r rest ih =>
    have hr : r.id ≠ id := h r (List.mem_cons_self _ _)
    have hrest := ih (fun x hx => h x (List.mem_cons_of_mem _ hx))
    rw [deliveries_cons, received_append, hrest]
    by_cases hl : r.Level ≤ msg.Level <;> simp [hl, received, hr]

/-- Of one pass, a probe registered once under its name is handed the message
once if its threshold lets it through. -/
theorem received_deliveries {σ : Type} (pre post : List (Registration σ))
    (r : Registration σ) (msg : Message) (hl : r.Level ≤ msg.Level)
    (hid : ∀ x ∈ pre ++ post, x.id ≠ r.id) :
    received r.id (deliveries (pre ++ r :: post) msg) = [msg] := by
  have hpre := received_deliveries_of_ne r.id pre msg
    (fun x hx => hid x (List.mem_append_left _ hx))
  have hpost := received_deliveries_of_ne r.id post msg
    (fun x hx => hid x (List.mem_append_right _ hx))
  rw [deliveries_append, deliveries_cons, received_append, received_append, hpre, hpost]
  simp [hl, received]

/-- A pass in which nothing escalates, because the level is not below Error or
because no probe that the message reaches fails, makes exactly the calls of
`deliveries`. -/
theorem Logger.rangeSinks_quiet_reached {σ A : Type} (Sprintf : String → List A → String)
    (logger : Logger (World σ)) (regs : List (Registration σ)) (msg : Message)
    (h : ¬ msg.Level < Log.Error
          ∨ ∀ r ∈ regs, r.Level ≤ msg.Level → ∀ m s, (r.behaviour m s).1 = none)
    (w : World σ) :
    (Logger.rangeSinks Sprintf logger (regs.map Registration.filter) msg w).trace
      = w.trace ++ deliveries regs msg := by
  induction regs generalizing w with
  | nil => simp [Logger.rangeSinks_nil, deliveries_nil]
  | cons r rest ih =>
    have hrest : ¬ msg.Level < Log.Error
        ∨ ∀ r ∈ rest, r.Level ≤ msg.Level → ∀ m s, (r.behaviour m s).1 = none := by
      rcases h with h | h
      · exact Or.inl h
      · exact Or.inr (fun x hx => h x (List.mem_cons_of_mem _ hx))
    rw [List.map_cons, Logger.rangeSinks_cons_iteration, ih hrest, Logger.iteration_quiet,
      deliveries_cons r rest, deliveries_cons r [], deliveries_nil]
    · simp
    · rintro ⟨hlt, hl, hne⟩
      rcases h with h | h
      · exact h hlt
      · exact hne (h r (List.mem_cons_self _ _) hl _ _)

/-- The calls of `Appendf` when nothing escalates: the clock is read, then the
message goes through one pass. -/
theorem Logger.Appendf_quiet_trace {σ A : Type} (Sprintf : String → List A → String)
    (clock : σ → Time × σ) (regs : List (Registration σ)) (level : Log.Level)
    (format : String) (args : List A) (v : World σ)
    (hq : ¬ level < Log.Error
          ∨ ∀ x ∈ regs, x.Level ≤ level → ∀ m s, (x.behaviour m s).1 = none) :
    (Logger.Appendf Sprintf (Logger.ofRegistrations (ProbeClock clock) regs)
        level format args v).2.trace
      = v.trace ++ Event.now (clock v.state).1
          :: deliveries regs
              { Level := level, Time := (clock v.state).1, Message := Sprintf format args } := by
  rw [Logger.Appendf, Logger.Append_eq, Logger.ofRegistrations_Sinks,
    Logger.ofRegistrations_TimeSource, Logger.rangeSinks_quiet_reached Sprintf _ regs _ hq]
  simp [ProbeClock]

/-- What a probe registered once, at a threshold the level reaches, is handed
by `Appendf` when nothing escalates: the one message built from the clock
reading and the formatted text. -/
theorem Logger.Appendf_received {σ A : Type} (Sprintf : String → List A → String)
    (clock : σ → Time × σ) (pre post : List (Registration σ)) (r : Registration σ)
    (level : Log.Level) (format : String) (args : List A) (v : World σ)
    (hq : ¬ level < Log.Error
          ∨ ∀ x ∈ pre ++ r :: post, x.Level ≤ level → ∀ m s, (x.behaviour m s).1 = none)
    (hl : r.Level ≤ level) (hid : ∀ x ∈ pre ++ post, x.id ≠ r.id) :
    receivedSince r.id v.trace
        (Logger.Appendf Sprintf (Logger.ofRegistrations (ProbeClock clock) (pre ++ r :: post))
          level format args v).2.trace
      = [{ Level := level, Time := (clock v.state).1, Message := Sprintf format args }] := by
  rw [receivedSince, Logger.Appendf_quiet_trace Sprintf clock _ level format args v hq,
    List.drop_left]
  simp only [received]
  exact received_deliveries pre post r _ hl hid

/-- C8, as amended: `Trace`, `Info` and `Errorf` are `Logger.Append` applied to
the message of level Trace, Info, Error whose time is the reading of the
TimeSource and whose text is `Sprintf(format, args)`.  A sink registered once,
at threshold Trace, is handed exactly that one message by `Errorf`, whatever
the sinks do, and by `Trace` and `Info` when no registered sink whose threshold
the level reaches fails. -/
theorem Logger.Trace_Info_Errorf_eq_Append {W σ A : Type}
    (Sprintf : String → List A → String) (logger : Logger W) (format : String)
    (args : List A) (w : W) (clock : σ → Time × σ) (pre post : List (Registration σ))
    (r : Registration σ) (v : World σ)
    (hT : r.Level = Log.Trace) (hid : ∀ x ∈ pre ++ post, x.id ≠ r.id) :
    Logger.Trace Sprintf logger format args w
      = Logger.Append Sprintf logger
          { Level := Log.Trace, Time := (logger.TimeSource w).1,
            Message := Sprintf format args } (logger.TimeSource w).2
    ∧ Logger.Info Sprintf logger format args w
      = Logger.Append Sprintf logger
          { Level := Log.Info, Time := (logger.TimeSource w).1,
            Message := Sprintf format args } (logger.TimeSource w).2
    ∧ Logger.Errorf Sprintf logger format args w
      = Logger.Append Sprintf logger
          { Level := Log.Error, Time := (logger.TimeSource w).1,
            Message := Sprintf format args } (logger.TimeSource w).2
    ∧ ((∀ x ∈ pre ++ r :: post, x.Level ≤ Log.Trace → ∀ m s, (x.behaviour m s).1 = none) →
        receivedSince r.id v.trace
          (Logger.Trace Sprintf (Logger.ofRegistrations (ProbeClock clock) (pre ++ r :: post))
            format args v).2.trace
        = [{ Level := Log.Trace, Time := (clock v.state).1, Message := Sprintf format args }])
    ∧ ((∀ x ∈ pre ++ r :: post, x.Level ≤ Log.Info → ∀ m s, (x.behaviour m s).1 = none) →
        receivedSince r.id v.trace
          (Logger.Info Sprintf (Logger.ofRegistrations (ProbeClock clock) (pre ++ r :: post))
            format args v).2.trace
        = [{ Level := Log.Info, Time := (clock v.state).1, Message := Sprintf format args }])
    ∧ receivedSince r.id v.trace
        (Logger.Errorf Sprintf (Logger.ofRegistrations (ProbeClock clock) (pre ++ r :: post))
          format args v).2.trace
      = [{ Level := Log.Error, Time := (clock v.state).1, Message := Sprintf format args }] := by
  refine ⟨?_, ?_, ?_, ?_, ?_, ?_⟩
  · rw [Logger.Trace, Logger.Appendf]
  · rw [Logger.Info, Logger.Appendf]
  · rw [Logger.Errorf, Logger.Appendf]
  · intro hok
    rw [Logger.Trace]
    exact Logger.Appendf_received Sprintf clock pre post r _ format args v (Or.inr hok)
      (by rw [hT]) hid
  · intro hok
    rw [Logger.Info]
    exact Logger.Appendf_received Sprintf clock pre post r _ format args v (Or.inr hok)
      (by rw [hT]; decide) hid
  · rw [Logger.Errorf]
    exact Logger.Appendf_received Sprintf clock pre post r _ format args v
      (Or.inl (lt_irrefl _)) (by rw [hT]; decide) hid

/-- C8, the claim as stated fails: next to a sink registered at Trace that
fails, the succeeding sink registered at Trace is handed two messages by
`Info("nothing serious")`, the escalation message and then the Info message. -/
theorem Logger.Trace_Info_Errorf_eq_Append_counterexample :
    receivedSince 2 World.start.trace
        (Logger.Info fmtSprintf
          (Logger.ofRegistrations (steadyClock 7)
            [failing Log.Trace 1 "no more space", succeeding Log.Trace 2])
          "nothing serious" [] World.start).2.trace
      = [{ Level := Log.Error, Time := 7, Message := "no more space" },
         { Level := Log.Info, Time := 7, Message := "nothing serious" }] := by
  simp [Logger.ofRegistrations, Logger.AddSinks, Logger.AddSink, Logger.Info,
    Logger.Appendf, Logger.Append_eq, Logger.rangeSinks_cons, Logger.rangeSinks_nil,
    Logger.Error_eq, Filter.Append, Probe, ProbeClock, steadyClock, failing, succeeding,
    World.start, Log.Info, Log.Error, Log.Trace, receivedSince, received]
  decide

/-- C8, the amended statement at work: a failing sink registered at Error, which
an Info message does not reach, and a succeeding sink registered at Trace;
`Info("info %s", "message")` hands the second one the message "info message"
and nothing else. -/
theorem Logger.Trace_Info_Errorf_eq_Append_witness :
    receivedSince 1 World.start.trace
        (Logger.Info fmtSprintf
          (Logger.ofRegistrations (steadyClock 7)
            [failing Log.Error 5 "no more space", succeeding Log.Trace 1])
          "info %s" ["message"] World.start).2.trace
      = [{ Level := Log.Info, Time := 7, Message := "info message" }] :=
  ((Logger.Trace_Info_Errorf_eq_Append fmtSprintf
      (Logger.ofRegistrations (steadyClock 7)
        [failing Log.Error 5 "no more space", succeeding Log.Trace 1])
      "info %s" ["message"] World.start (fun u : Unit => ((7 : Time), u))
      [failing Log.Error 5 "no more space"] [] (succeeding Log.Trace 1) World.start
      rfl
      (fun x hx => by
        simp only [List.append_nil, List.mem_singleton] at hx
        subst hx
        decide)).2.2.2.2.1
    (fun x hx hl => by
      simp only [List.mem_append, List.mem_singleton] at hx
      rcases hx with rfl | rfl
      · exact absurd hl (by decide)
      · intro _ _
        rfl)).trans (by decide)

/-! ## A fixed clock -/

theorem Stamped.trans {t0 : Time} {a b c : List Event} (hab : Stamped t0 a b)
    (hbc : Stamped t0 b c) : Stamped t0 a c := by
  obtain ⟨d1, rfl, h1⟩ := hab
  obtain ⟨d2, rfl, h2⟩ := hbc
  refine ⟨d1 ++ d2, by rw [List.append_assoc], ?_⟩
  intro id m hm
  rcases List.mem_append.mp hm with h | h
  · exact h1 id m h
  · exact h2 id m h

theorem Stamped.deliveries {σ : Type} (t0 : Time) (old : List Event)
    (regs : List (Registration σ)) (msg : Message) (hm : msg.Time = t0) :
    Stamped t0 old (old ++ Log.deliveries regs msg) := by
  refine ⟨_, rfl, ?_⟩
  intro id m h
  obtain ⟨r, -, -, he⟩ := (mem_deliveries regs msg _).mp h
  cases he
  exact hm

/-- Under a fixed clock every message of a pass carries the fixed time, if the
message the pass started with does. -/
theorem Logger.rangeSinks_stamped {σ A : Type} (Sprintf : String → List A → String)
    (t0 : Time) (all regs : List (Registration σ)) (msg : Message) (hm : msg.Time = t0)
    (w : World σ) :
    Stamped t0 w.trace
      (Logger.rangeSinks Sprintf (Logger.ofRegistrations (FixedTime.Now t0) all)
        (regs.map Registration.filter) msg w).trace := by
  induction regs generalizing w with
  | nil =>
    rw [List.map_nil, Logger.rangeSinks_nil]
    exact ⟨[], by simp, by simp⟩
  | cons r rest ih =>
    rw [List.map_cons, Logger.rangeSinks_cons_iteration]
    refine Stamped.trans ?_ (ih _)
    by_cases hc : msg.Level < Log.Error ∧ r.Level ≤ msg.Level
        ∧ (r.behaviour msg w.state).1 ≠ none
    · obtain ⟨hlt, hl, hne⟩ := hc
      obtain ⟨err, hb⟩ := Option.ne_none_iff_exists'.mp hne
      rw [Logger.iteration_escalates Sprintf _ all r msg w err hlt hl hb]
      refine @Stamped.trans t0 _ (w.trace ++ Log.deliveries [r] msg) _
        (Stamped.deliveries t0 _ _ msg hm) ?_
      have h1 : w.trace ++ [Event.append r.id msg] = w.trace ++ Log.deliveries [r] msg := by
        simp [deliveries_cons, deliveries_nil, hl]
      simp only [FixedTime.Now]
      rw [h1]
      exact Stamped.deliveries t0 _ all _ rfl
    · rw [Logger.iteration_quiet Sprintf _ r msg w hc]
      exact Stamped.deliveries t0 _ _ msg hm

/-- Under a fixed clock `Appendf` stamps every message with the fixed time. -/
theorem Logger.Appendf_stamped {σ A : Type} (Sprintf : String → List A → String)
    (t0 : Time) (regs : List (Registration σ)) (level : Log.Level) (format : String)
    (args : List A) (w : World σ) :
    Stamped t0 w.trace
      (Logger.Appendf Sprintf (Logger.ofRegistrations (FixedTime.Now t0) regs)
        level format args w).2.trace := by
  rw [Logger.Appendf, Logger.Append_eq, Logger.ofRegistrations_Sinks,
    Logger.ofRegistrations_TimeSource]
  exact Logger.rangeSinks_stamped Sprintf t0 regs regs _ rfl _

/-- C9: on a logger whose TimeSource is the fixed clock at `t0`, every message a
registered sink is handed during `Trace`, `Info`, `Errorf` or `Error`, the
escalation messages included, has Time `t0`. -/
theorem Logger.fixed_clock_stamps_every_message {σ A : Type}
    (Sprintf : String → List A → String) (t0 : Time) (regs : List (Registration σ))
    (format : String) (args : List A) (err : Err) (w : World σ) :
    Stamped t0 w.trace
      (Logger.Trace Sprintf (Logger.ofRegistrations (FixedTime.Now t0) regs)
        format args w).2.trace
    ∧ Stamped t0 w.trace
      (Logger.Info Sprintf (Logger.ofRegistrations (FixedTime.Now t0) regs)
        format args w).2.trace
    ∧ Stamped t0 w.trace
      (Logger.Errorf Sprintf (Logger.ofRegistrations (FixedTime.Now t0) regs)
        format args w).2.trace
    ∧ Stamped t0 w.trace
      (Logger.Error Sprintf (Logger.ofRegistrations (FixedTime.Now t0) regs) err w).2.trace := by
  refine ⟨?_, ?_, ?_, ?_⟩
  · rw [Logger.Trace]
    exact Logger.Appendf_stamped Sprintf t0 regs _ format args w
  · rw [Logger.Info]
    exact Logger.Appendf_stamped Sprintf t0 regs _ format args w
  · rw [Logger.Errorf]
    exact Logger.Appendf_stamped Sprintf t0 regs _ format args w
  · rw [Logger.Error, Logger.Errorf]
    exact Logger.Appendf_stamped Sprintf t0 regs _ err.Error [] w

/-! ## What a filter returns -/

/-- C12: for a message whose level reaches the threshold, `Filter.Append`
returns what the child returns on that message, nil or the error unchanged, and
leaves the world as the child leaves it; the filter is read, never written, so
a second call still goes by the same threshold to the same child. -/
theorem Filter.Append_returns_child {W : Type} (filter : Filter W) (msg next : Message)
    (w : W) (h : filter.Level ≤ msg.Level) :
    (Filter.Append filter msg w).1 = (filter.Sink msg w).1
    ∧ Filter.Append filter msg w = filter.Sink msg w
    ∧ Filter.Append filter next (Filter.Append filter msg w).2
        = if filter.Level ≤ next.Level then filter.Sink next (filter.Sink msg w).2
          else (none, (filter.Sink msg w).2) := by
  have h1 : Filter.Append filter msg w = filter.Sink msg w := by
    simp [Filter.Append, h]
  refine ⟨by rw [h1], h1, ?_⟩
  rw [h1]
  simp [Filter.Append]

/-- C12 at work: a filter at Info around a sink that fails with "no more space"
returns that error on an Error message. -/
theorem Filter.Append_returns_child_witness :
    (Filter.Append { Sink := MockSink.Append 1 (some { Error := "no more space" }),
                     Level := Log.Info }
        { Level := Log.Error, Time := 0, Message := "disk gone" } World.start).1
      = some { Error := "no more space" } :=
  (Filter.Append_returns_child
      { Sink := MockSink.Append 1 (some { Error := "no more space" }), Level := Log.Info }
      { Level := Log.Error, Time := 0, Message := "disk gone" }
      { Level := Log.Error, Time := 0, Message := "disk gone" } World.start
      (by decide)).1.trans rfl

/-! ## Rendering a level -/

/-- C13: `Level.String` is "TRACE" for Trace (0), "INFO" for Info (1), "ERROR"
for Error (2) and "NONE" for every other integer, negative or above 2; and
Trace < Info < Error. -/
theorem Level_String_table :
    Level.String Trace = "TRACE" ∧ Level.String Info = "INFO"
    ∧ Level.String Error = "ERROR"
    ∧ Trace = 0 ∧ Info = 1 ∧ Error = 2
    ∧ (∀ level : Level, level < 0 ∨ 2 < level → Level.String level = "NONE")
    ∧ (∀ level : Level, Level.String level = "NONE" → level < 0 ∨ 2 < level)
    ∧ Trace < Info ∧ Info < Error := by
  have hout : ∀ k : Int, k < 0 ∨ 2 < k → Level.String k = "NONE" := by
    intro k h
    have h0 : k ≠ 0 := by omega
    have h1 : k ≠ 1 := by omega
    have h2 : k ≠ 2 := by omega
    simp [Level.String, Trace, Info, Error, h0, h1, h2]
  have hin : ∀ k : Int, Level.String k = "NONE" → k < 0 ∨ 2 < k := by
    intro k h
    by_contra hc
    have hcases : k = 0 ∨ k = 1 ∨ k = 2 := by omega
    rcases hcases with h0 | h0 | h0
    · rw [h0] at h
      exact absurd h (by decide)
    · rw [h0] at h
      exact absurd h (by decide)
    · rw [h0] at h
      exact absurd h (by decide)
  exact ⟨by decide, by decide, by decide, rfl, rfl, rfl, hout, hin, by decide, by decide⟩

/-! ## Stacked filters -/

/-- C19: a filter at `T1` around a filter at `T2` around `s` is the filter at
`max T1 T2` around `s`, as a sink: the same calls to `s`, the same return
value; so `AddSink(T1, &Filter{s, T2})` registers what `AddSink(max T1 T2, s)`
registers, and a probe behind the two filters is handed a message exactly when
its level is at least `max T1 T2`. -/
theorem Filter.Append_stacked {W σ : Type} (T1 T2 : Log.Level) (s : Log.Sink W)
    (logger : Logger W) (id : Nat) (behaviour : Message → σ → error × σ) (msg : Message)
    (v : World σ) :
    Filter.Append { Sink := Filter.Append { Sink := s, Level := T2 }, Level := T1 }
      = Filter.Append { Sink := s, Level := max T1 T2 }
    ∧ logger.AddSink T1 (Filter.Append { Sink := s, Level := T2 })
      = logger.AddSink (max T1 T2) s
    ∧ ((Filter.Append { Sink := Filter.Append { Sink := Probe id behaviour, Level := T2 },
                        Level := T1 } msg v).2.trace
        = v.trace ++ [Event.append id msg] ↔ max T1 T2 ≤ msg.Level)
    ∧ ((Filter.Append { Sink := Filter.Append { Sink := Probe id behaviour, Level := T2 },
                        Level := T1 } msg v).2.trace
        = v.trace ↔ msg.Level < max T1 T2) := by
  have hstack : ∀ (c : Log.Sink W),
      Filter.Append { Sink := Filter.Append { Sink := c, Level := T2 }, Level := T1 }
        = Filter.Append { Sink := c, Level := max T1 T2 } := by
    intro c
    funext m u
    by_cases h1 : T1 ≤ m.Level <;> by_cases h2 : T2 ≤ m.Level <;>
      simp [Filter.Append, h1, h2]
  have hprobe : Filter.Append
      { Sink := Filter.Append { Sink := Probe id behaviour, Level := T2 }, Level := T1 }
        = Filter.Append { Sink := Probe id behaviour, Level := max T1 T2 } := by
    funext m u
    by_cases h1 : T1 ≤ m.Level <;> by_cases h2 : T2 ≤ m.Level <;>
      simp [Filter.Append, h1, h2]
  refine ⟨hstack s, ?_, ?_, ?_⟩
  · simp only [Logger.AddSink, hstack s]
  · rw [hprobe]
    by_cases h : max T1 T2 ≤ msg.Level
    · simp [Filter.Append, h, Probe]
    · simp [Filter.Append, h]
  · rw [hprobe]
    by_cases h : max T1 T2 ≤ msg.Level
    · simp [Filter.Append, h, Probe, not_lt.mpr h]
    · simp [Filter.Append, h, not_le.mp h]

/-! ## The stream sink -/

/-- The buffer `Std.Write` builds from an emptied buffer is the line of the
text. -/
theorem Std.buffer_eq_specLine (old text : List UInt8) :
    (if text.length = 0 ∨ text[text.length - 1]? ≠ some 10 then old.take 0 ++ text ++ [10]
      else old.take 0 ++ text) = specLine text := by
  rw [← List.getLast?_eq_getElem?]
  by_cases h0 : text = []
  · subst h0
    simp [specLine]
  · have hlen : text.length ≠ 0 := fun h => h0 (List.length_eq_zero.mp h)
    by_cases h1 : text.getLast? = some 10
    · simp [specLine, h0, h1, hlen]
    · simp [specLine, h1, hlen]

theorem Std.Write_eq {W : Type} (write : List UInt8 → W → error × W) (s : Std)
    (msg : String) (w : W) :
    Std.Write write s msg w
      = ((write (specLine (goBytes msg)) w).1, { buf := specLine (goBytes msg) },
          (write (specLine (goBytes msg)) w).2) := by
  simp only [Std.Write, Std.buffer_eq_specLine]
  rcases h : write (specLine (goBytes msg)) w with ⟨e, w1⟩
  cases e <;> rfl

/-- C14: what `Std.Append` builds and hands to the error stream, in one write,
is the text of the message if the text is non-empty and ends with a line feed,
and the text followed by one line feed otherwise; the level, the time and the
buffer left by earlier calls have no part in it. -/
theorem Std.Append_writes_line {W : Type} (write : List UInt8 → W → error × W)
    (s t : Std) (msg other : Message) (w : W) (written : List (List UInt8)) :
    Std.Append write s msg w
      = ((write (specLine (goBytes msg.Message)) w).1,
          { buf := specLine (goBytes msg.Message) },
          (write (specLine (goBytes msg.Message)) w).2)
    ∧ (Std.Append recordingStderr s msg written).2.2
      = written ++ [specLine (goBytes msg.Message)]
    ∧ specLine (goBytes msg.Message)
      = (if goBytes msg.Message ≠ [] ∧ (goBytes msg.Message).getLast? = some 10 then
          goBytes msg.Message
        else goBytes msg.Message ++ [10])
    ∧ (other.Message = msg.Message →
        Std.Append write t other w = Std.Append write s msg w) := by
  refine ⟨?_, ?_, rfl, ?_⟩
  · rw [Std.Append, Std.Write_eq]
  · rw [Std.Append, Std.Write_eq]
    rfl
  · intro h
    rw [Std.Append, Std.Append, Std.Write_eq, Std.Write_eq, h]

/-! ## How many calls an append makes -/

theorem Counted.foldl_count {W : Type} (sinks : List (Sink W)) (msg : Message)
    (u : W × Nat) :
    (List.foldl (fun v sink => (sink msg v).2) u (sinks.map Counted.sink)).2
      = u.2 + sinks.length := by
  induction sinks generalizing u with
  | nil => simp
  | cons x xs ih =>
    rw [List.map_cons, List.foldl_cons, ih, List.length_cons]
    simp only [Counted.sink]
    omega

/-- The escalation that `Append` starts is a plain pass over the sinks. -/
theorem Logger.Error_eq_foldl {W A : Type} (Sprintf : String → List A → String)
    (logger : Logger W) (err : Err) (w : W) :
    Logger.Error Sprintf logger err w
      = (none, logger.Sinks.foldl
          (fun v sink =>
            (sink { Level := Log.Error, Time := (logger.TimeSource w).1,
                    Message := Sprintf err.Error [] } v).2)
          (logger.TimeSource w).2) := by
  rw [Logger.Error_eq, Logger.Append_eq,
    Logger.rangeSinks_of_not_lt Sprintf logger _ _ (lt_irrefl _)]

theorem Counted.rangeSinks_count {W A : Type} (Sprintf : String → List A → String)
    (logger : Logger W) (rest : List (Sink W)) (msg : Message) (u : W × Nat) :
    (Logger.rangeSinks Sprintf (Counted.logger logger) (rest.map Counted.sink) msg u).2
      ≤ u.2 + rest.length * (1 + logger.Sinks.length) := by
  induction rest generalizing u with
  | nil => simp [Logger.rangeSinks_nil]
  | cons x xs ih =>
    rw [List.map_cons, Logger.rangeSinks_cons]
    refine le_trans (ih _) ?_
    have hstep : (match (Counted.sink x msg u).1 with
          | some err =>
            if msg.Level < Log.Error then
              (Logger.Error Sprintf (Counted.logger logger) err (Counted.sink x msg u).2).2
            else (Counted.sink x msg u).2
          | none => (Counted.sink x msg u).2).2 ≤ u.2 + (1 + logger.Sinks.length) := by
      cases h : (Counted.sink x msg u).1 with
      | none =>
        simp only [Counted.sink]
        omega
      | some err =>
        by_cases hl : msg.Level < Log.Error
        · simp only [hl, if_true]
          rw [Logger.Error_eq_foldl]
          simp only [Counted.logger, Counted.foldl_count]
          simp only [Counted.clock, Counted.sink]
          omega
        · simp only [hl, if_false]
          simp only [Counted.sink]
          omega
    rw [List.length_cons, Nat.succ_mul]
    omega

/-- C15: `Logger.Append` is a total function of its arguments, so it returns
whenever the sinks do; the `Append` that an escalation starts is a plain pass
over the sinks, which starts no further `Append`, so the nesting depth is at
most one; and with `n` registered sinks the number of calls made to them is at
most `n + n * n`. -/
theorem Logger.Append_bounded {W A : Type} (Sprintf : String → List A → String)
    (logger : Logger W) (msg : Message) (err : Err) (w : W) (calls : Nat) :
    (∃ result, Logger.Append Sprintf logger msg w = result ∧ result.1 = none)
    ∧ Logger.Error Sprintf logger err w
      = (none, logger.Sinks.foldl
          (fun v sink =>
            (sink { Level := Log.Error, Time := (logger.TimeSource w).1,
                    Message := Sprintf err.Error [] } v).2)
          (logger.TimeSource w).2)
    ∧ (Logger.Append Sprintf (Counted.logger logger) msg (w, calls)).2.2
      ≤ calls + (logger.Sinks.length + logger.Sinks.length * logger.Sinks.length) := by
  refine ⟨⟨_, rfl, by rw [Logger.Append_eq]⟩, Logger.Error_eq_foldl Sprintf logger err w, ?_⟩
  rw [Logger.Append_eq]
  have h := Counted.rangeSinks_count Sprintf logger logger.Sinks msg (w, calls)
  have hs : (Counted.logger logger).Sinks = logger.Sinks.map Counted.sink := rfl
  rw [hs]
  refine le_trans h ?_
  simp only [Nat.mul_add, Nat.mul_one]
  omega

/-! ## Where the escalation falls in the fan-out -/

/-- C17: when the sink registered at position `i` fails on a message `m` of
level `L < Error`, the escalation message is handed to the registered sinks, in
registration order, right after the failing call: after the part of the fan-out
that handed `m` to the sinks before `i`, and before the part that hands `m` to
the sinks after `i`. -/
theorem Logger.escalation_in_the_middle {σ A : Type} (Sprintf : String → List A → String)
    (clock : σ → Time × σ) (pre post : List (Registration σ)) (r : Registration σ)
    (msg : Message) (w : World σ)
    (hlt : msg.Level < Log.Error) (hl : r.Level ≤ msg.Level)
    (hfail : ∀ s, (r.behaviour msg s).1 ≠ none) :
    ∃ (before after : List Event) (s : σ) (err : Err) (esc : Message),
      (r.behaviour msg s).1 = some err
      ∧ esc = { Level := Log.Error, Time := (clock (r.behaviour msg s).2).1,
                Message := Sprintf err.Error [] }
      ∧ (Logger.Append Sprintf
            (Logger.ofRegistrations (ProbeClock clock) (pre ++ r :: post)) msg w).2.trace
          = w.trace ++ before
              ++ [Event.append r.id msg, Event.now esc.Time]
              ++ deliveries (pre ++ r :: post) esc
              ++ after
      ∧ before.filter (Event.carries msg) = deliveries pre msg
      ∧ after.filter (Event.carries msg) = deliveries post msg
      ∧ (∀ x ∈ pre, x.Level ≤ msg.Level →
            Event.append x.id msg ∈ before
            ∧ Event.append x.id esc ∈ deliveries (pre ++ r :: post) esc)
      ∧ (∀ x ∈ post, x.Level ≤ msg.Level →
            Event.append x.id esc ∈ deliveries (pre ++ r :: post) esc
            ∧ Event.append x.id msg ∈ after) := by
  obtain ⟨before, hbefore, hfb⟩ := Logger.rangeSinks_carries Sprintf clock
    (pre ++ r :: post) pre msg w
  generalize hw0 : Logger.rangeSinks Sprintf
    (Logger.ofRegistrations (ProbeClock clock) (pre ++ r :: post))
    (pre.map Registration.filter) msg w = w0 at hbefore
  obtain ⟨err, hb⟩ := Option.ne_none_iff_exists'.mp (hfail w0.state)
  have h1 := Logger.iteration_escalates Sprintf (ProbeClock clock) (pre ++ r :: post)
    r msg w0 err hlt hl hb
  generalize hw1 : Logger.iteration Sprintf
    (Logger.ofRegistrations (ProbeClock clock) (pre ++ r :: post)) r.filter msg w0 = w1 at h1
  obtain ⟨after, hafter, hfa⟩ := Logger.rangeSinks_carries Sprintf clock
    (pre ++ r :: post) post msg w1
  have hle : ∀ x : Registration σ, x.Level ≤ msg.Level → x.Level ≤ Log.Error :=
    fun x hx => le_of_lt (lt_of_le_of_lt hx hlt)
  refine ⟨before, after, w0.state, err, _, hb, rfl, ?_, hfb, hfa, ?_, ?_⟩
  · rw [Logger.Append_eq, Logger.ofRegistrations_Sinks, List.map_append, List.map_cons,
      Logger.rangeSinks_append, hw0, Logger.rangeSinks_cons_iteration, hw1, hafter, h1]
    simp [ProbeClock, hbefore]
  · intro x hx hxl
    constructor
    · have hmem : Event.append x.id msg ∈ deliveries pre msg :=
        (mem_deliveries _ _ _).mpr ⟨x, hx, hxl, rfl⟩
      rw [← hfb] at hmem
      exact (List.mem_filter.mp hmem).1
    · exact (mem_deliveries _ _ _).mpr ⟨x, List.mem_append_left _ hx, hle x hxl, rfl⟩
  · intro x hx hxl
    constructor
    · exact (mem_deliveries _ _ _).mpr
        ⟨x, List.mem_append_right _ (List.mem_cons_of_mem _ hx), hle x hxl, rfl⟩
    · have hmem : Event.append x.id msg ∈ deliveries post msg :=
        (mem_deliveries _ _ _).mpr ⟨x, hx, hxl, rfl⟩
      rw [← hfa] at hmem
      exact (List.mem_filter.mp hmem).1

/-- C17 at work: three sinks registered at Trace, the second one failing with
"no more space", and an Info message. -/
theorem Logger.escalation_in_the_middle_witness :
    ∃ (before after : List Event) (s : Unit) (err : Err) (esc : Message),
      ((failing Log.Trace 2 "no more space").behaviour infoMessage s).1 = some err
      ∧ esc = { Level := Log.Error,
                Time := ((fun u : Unit => ((7 : Time), u))
                  ((failing Log.Trace 2 "no more space").behaviour infoMessage s).2).1,
                Message := fmtSprintf err.Error [] }
      ∧ (Logger.Append fmtSprintf
            (Logger.ofRegistrations (ProbeClock (fun u : Unit => ((7 : Time), u)))
              ([succeeding Log.Trace 1] ++ failing Log.Trace 2 "no more space"
                :: [succeeding Log.Trace 3])) infoMessage World.start).2.trace
          = World.start.trace ++ before
              ++ [Event.append (failing Log.Trace 2 "no more space").id infoMessage,
                  Event.now esc.Time]
              ++ deliveries ([succeeding Log.Trace 1] ++ failing Log.Trace 2 "no more space"
                  :: [succeeding Log.Trace 3]) esc
              ++ after
      ∧ before.filter (Event.carries infoMessage)
          = deliveries [succeeding Log.Trace 1] infoMessage
      ∧ after.filter (Event.carries infoMessage)
          = deliveries [succeeding Log.Trace 3] infoMessage
      ∧ (∀ x ∈ [succeeding Log.Trace 1], x.Level ≤ infoMessage.Level →
            Event.append x.id infoMessage ∈ before
            ∧ Event.append x.id esc
                ∈ deliveries ([succeeding Log.Trace 1] ++ failing Log.Trace 2 "no more space"
                    :: [succeeding Log.Trace 3]) esc)
      ∧ (∀ x ∈ [succeeding Log.Trace 3], x.Level ≤ infoMessage.Level →
            Event.append x.id esc
                ∈ deliveries ([succeeding Log.Trace 1] ++ failing Log.Trace 2 "no more space"
                    :: [succeeding Log.Trace 3]) esc
            ∧ Event.append x.id infoMessage ∈ after) :=
  Logger.escalation_in_the_middle fmtSprintf (fun u : Unit => ((7 : Time), u))
    [succeeding Log.Trace 1] [succeeding Log.Trace 3] (failing Log.Trace 2 "no more space")
    infoMessage World.start (by decide) (by decide) (fun _ => by simp [failing])

/-! ## A logger as a sink of a logger -/

theorem Logger.ofRegistrationsAround_Sinks {σ : Type}
    (timeSource : Log.TimeSource (World σ)) (pre : List (Registration σ)) (T : Log.Level)
    (inner : Log.Sink (World σ)) (post : List (Registration σ)) :
    (Logger.ofRegistrationsAround timeSource pre T inner post).Sinks
      = pre.map Registration.filter
          ++ Filter.Append { Sink := inner, Level := T } :: post.map Registration.filter := by
  simp only [Logger.ofRegistrationsAround, Logger.AddSinks_Sinks, List.map_append,
    List.map_cons, List.map_map, List.nil_append, Function.comp_def]
  rfl

/-- C18: a logger registered as a sink of another logger never makes the outer
logger escalate.  Whatever the two loggers are, the step of the outer loop for
the inner logger is the call of the inner logger alone, if the threshold lets
the message through, and nothing otherwise.  With succeeding probes around the
inner logger, the outer sinks are handed the original message only, and what
happens in between is what the inner logger does on its own: the outer
TimeSource is not used. -/
theorem Logger.nested_logger_never_escalates {W σ A : Type}
    (Sprintf : String → List A → String) (outer inner : Logger W) (T : Log.Level)
    (msg : Message) (w : W) (timeSource : Log.TimeSource (World σ))
    (innerProbes : Logger (World σ)) (pre post : List (Registration σ)) (v : World σ)
    (hpre : ∀ r ∈ pre, ∀ m s, (r.behaviour m s).1 = none)
    (hpost : ∀ r ∈ post, ∀ m s, (r.behaviour m s).1 = none) :
    Logger.iteration Sprintf outer
        (Filter.Append { Sink := Logger.Append Sprintf inner, Level := T }) msg w
      = (if T ≤ msg.Level then (Logger.Append Sprintf inner msg w).2 else w)
    ∧ ∃ v1 : World σ, v1.trace = v.trace ++ deliveries pre msg
      ∧ (Logger.Append Sprintf
            (Logger.ofRegistrationsAround timeSource pre T
              (Logger.Append Sprintf innerProbes) post) msg v).2.trace
          = (if T ≤ msg.Level then (Logger.Append Sprintf innerProbes msg v1).2 else v1).trace
              ++ deliveries post msg := by
  have hstep : ∀ (X : Type) (o i : Logger X) (x : X),
      Logger.iteration Sprintf o
          (Filter.Append { Sink := Logger.Append Sprintf i, Level := T }) msg x
        = (if T ≤ msg.Level then (Logger.Append Sprintf i msg x).2 else x) := by
    intro X o i x
    by_cases h : T ≤ msg.Level
    · simp [Logger.iteration, Filter.Append, h, Logger.Append_eq]
    · simp [Logger.iteration, Filter.Append, h]
  refine ⟨hstep W outer inner w, ?_⟩
  refine ⟨Logger.rangeSinks Sprintf
    (Logger.ofRegistrationsAround timeSource pre T (Logger.Append Sprintf innerProbes) post)
    (pre.map Registration.filter) msg v,
    Logger.rangeSinks_quiet Sprintf _ pre msg (Or.inr hpre) v, ?_⟩
  rw [Logger.Append_eq, Logger.ofRegistrationsAround_Sinks, Logger.rangeSinks_append,
    Logger.rangeSinks_cons_iteration, hstep,
    Logger.rangeSinks_quiet Sprintf _ post msg (Or.inr hpost)]

/-! ## One escalation per failure -/

theorem deliveries_filter_not_carries_self {σ : Type} (regs : List (Registration σ))
    (msg : Message) :
    (deliveries regs msg).filter (fun e => !(Event.carries msg e)) = [] := by
  apply List.filter_eq_nil_iff.mpr
  intro e he
  obtain ⟨r, -, -, rfl⟩ := (mem_deliveries regs msg e).mp he
  simp [Event.carries]

theorem deliveries_filter_not_carries_other {σ : Type} (regs : List (Registration σ))
    (msg other : Message) (h : other ≠ msg) :
    (deliveries regs other).filter (fun e => !(Event.carries msg e))
      = deliveries regs other := by
  apply List.filter_eq_self.mpr
  intro e he
  obtain ⟨r, -, -, rfl⟩ := (mem_deliveries regs other e).mp he
  simp [Event.carries, h]

/-- Of a pass on a message below Error over probes that each always fail or
always succeed: what is left of the calls once the calls with the message
itself are taken out is, for each failing probe that the message reaches, one
reading of the clock and one pass of the Error message built from it. -/
theorem Logger.rangeSinks_escalations {σ A : Type} (Sprintf : String → List A → String)
    (clock : σ → Time × σ) (all regs : List (Registration σ))
    (fails : Registration σ → Bool) (msg : Message) (hlt : msg.Level < Log.Error)
    (hfail : ∀ r ∈ regs, fails r = true → ∀ m s, (r.behaviour m s).1 ≠ none)
    (hok : ∀ r ∈ regs, fails r = false → ∀ m s, (r.behaviour m s).1 = none)
    (w : World σ) :
    ∃ (delta : List Event) (escs : List Message),
      (Logger.rangeSinks Sprintf (Logger.ofRegistrations (ProbeClock clock) all)
          (regs.map Registration.filter) msg w).trace = w.trace ++ delta
      ∧ escs.length
          = (regs.filter (fun r => fails r && decide (r.Level ≤ msg.Level))).length
      ∧ (∀ esc ∈ escs, esc.Level = Log.Error)
      ∧ delta.filter (fun e => !(Event.carries msg e))
          = escs.flatMap (fun esc => Event.now esc.Time :: deliveries all esc) := by
  induction regs generalizing w with
  | nil => exact ⟨[], [], by simp [Logger.rangeSinks_nil], rfl, by simp, rfl⟩
  | cons r rest ih =>
    rw [List.map_cons, Logger.rangeSinks_cons_iteration]
    obtain ⟨d, escs, hd, hlen, hlev, hf⟩ :=
      ih (fun x hx => hfail x (List.mem_cons_of_mem _ hx))
        (fun x hx => hok x (List.mem_cons_of_mem _ hx))
        (Logger.iteration Sprintf (Logger.ofRegistrations (ProbeClock clock) all)
          r.filter msg w)
    by_cases hc : fails r = true ∧ r.Level ≤ msg.Level
    · obtain ⟨hfr, hl⟩ := hc
      obtain ⟨err, hb⟩ := Option.ne_none_iff_exists'.mp
        (hfail r (List.mem_cons_self _ _) hfr msg w.state)
      have hne : (⟨Log.Error, (clock (r.behaviour msg w.state).2).1, Sprintf err.Error []⟩
          : Message) ≠ msg := by
        intro he
        rw [← he] at hlt
        exact lt_irrefl _ hlt
      refine ⟨Event.append r.id msg
          :: Event.now (clock (r.behaviour msg w.state).2).1
          :: (deliveries all
                ⟨Log.Error, (clock (r.behaviour msg w.state).2).1, Sprintf err.Error []⟩ ++ d),
        ⟨Log.Error, (clock (r.behaviour msg w.state).2).1, Sprintf err.Error []⟩ :: escs,
        ?_, ?_, ?_, ?_⟩
      · rw [hd, Logger.iteration_escalates Sprintf _ all r msg w err hlt hl hb]
        simp [ProbeClock]
      · simp [List.filter_cons, hfr, hl, hlen]
      · intro esc hesc
        rcases List.mem_cons.mp hesc with h | h
        · rw [h]
        · exact hlev esc h
      · rw [List.filter_cons, List.filter_cons, List.filter_append,
          deliveries_filter_not_carries_other all msg _ hne, hf]
        simp [Event.carries]
    · have hquiet : ¬ (msg.Level < Log.Error ∧ r.Level ≤ msg.Level
          ∧ (r.behaviour msg w.state).1 ≠ none) := by
        rintro ⟨-, hl, hne⟩
        have hfr : fails r = false := by
          cases hfails : fails r with
          | false => rfl
          | true => exact absurd ⟨hfails, hl⟩ hc
        exact hne (hok r (List.mem_cons_self _ _) hfr msg w.state)
      refine ⟨deliveries [r] msg ++ d, escs, ?_, ?_, hlev, ?_⟩
      · rw [hd, Logger.iteration_quiet Sprintf _ r msg w hquiet, List.append_assoc]
      · have hcond : (fails r && decide (r.Level ≤ msg.Level)) = false := by
          cases hfails : fails r with
          | false => rfl
          | true =>
            have hnl : ¬ r.Level ≤ msg.Level := fun hl => hc ⟨hfails, hl⟩
            simp [hnl]
        rw [List.filter_cons, hcond]
        simpa using hlen
      · rw [List.filter_append, deliveries_filter_not_carries_self, hf]
        rfl

/-- C11: on a logger whose sinks each always fail or always succeed, for a
message of level `L < Error`, with `k` the number of registered sinks that fail
and whose threshold is at most `L`: `Logger.Append` builds `k` escalation
messages, all of level Error; next to the fan-out of the original message, the
calls are, for each escalation message in turn, one reading of the clock and
one call with that message to every registered sink whose threshold is at most
Error, in registration order. -/
theorem Logger.Append_escalates_per_failure {σ A : Type}
    (Sprintf : String → List A → String) (clock : σ → Time × σ)
    (regs : List (Registration σ)) (fails : Registration σ → Bool) (msg : Message)
    (w : World σ) (hlt : msg.Level < Log.Error)
    (hfail : ∀ r ∈ regs, fails r = true → ∀ m s, (r.behaviour m s).1 ≠ none)
    (hok : ∀ r ∈ regs, fails r = false → ∀ m s, (r.behaviour m s).1 = none) :
    ∃ (delta : List Event) (escs : List Message),
      (Logger.Append Sprintf (Logger.ofRegistrations (ProbeClock clock) regs) msg w).2.trace
        = w.trace ++ delta
      ∧ escs.length
          = (regs.filter (fun r => fails r && decide (r.Level ≤ msg.Level))).length
      ∧ (∀ esc ∈ escs, esc.Level = Log.Error)
      ∧ delta.filter (fun e => !(Event.carries msg e))
          = escs.flatMap (fun esc =>
              Event.now esc.Time
                :: (regs.filter (fun r => decide (r.Level ≤ Log.Error))).map
                    (fun r => Event.append r.id esc))
      ∧ delta.filter (Event.carries msg)
          = (regs.filter (fun r => decide (r.Level ≤ msg.Level))).map
              (fun r => Event.append r.id msg) := by
  obtain ⟨delta, escs, hd, hlen, hlev, hf⟩ :=
    Logger.rangeSinks_escalations Sprintf clock regs regs fails msg hlt hfail hok w
  obtain ⟨delta2, hd2, hf2⟩ := Logger.rangeSinks_carries Sprintf clock regs regs msg w
  have heq : delta2 = delta := by
    rw [hd] at hd2
    exact (List.append_cancel_left hd2).symm
  subst heq
  refine ⟨delta2, escs, ?_, hlen, hlev, ?_, hf2⟩
  · rw [Logger.Append_eq, Logger.ofRegistrations_Sinks, hd]
  · rw [hf]
    apply List.flatMap_congr
    intro esc hesc
    simp only [deliveries, hlev esc hesc]

/-- C11 at work: the first and the third of three sinks fail, an Info message
reaches both, and two escalation messages are built. -/
theorem Logger.Append_escalates_per_failure_witness :
    ∃ (delta : List Event) (escs : List Message),
      (Logger.Append fmtSprintf
          (Logger.ofRegistrations (ProbeClock (fun u : Unit => ((7 : Time), u))) mixedProbes)
          infoMessage World.start).2.trace
        = World.start.trace ++ delta
      ∧ escs.length
          = (mixedProbes.filter
              (fun r => (r.id != 2) && decide (r.Level ≤ infoMessage.Level))).length
      ∧ (∀ esc ∈ escs, esc.Level = Log.Error)
      ∧ delta.filter (fun e => !(Event.carries infoMessage e))
          = escs.flatMap (fun esc =>
              Event.now esc.Time
                :: (mixedProbes.filter (fun r => decide (r.Level ≤ Log.Error))).map
                    (fun r => Event.append r.id esc))
      ∧ delta.filter (Event.carries infoMessage)
          = (mixedProbes.filter (fun r => decide (r.Level ≤ infoMessage.Level))).map
              (fun r => Event.append r.id infoMessage) :=
  Logger.Append_escalates_per_failure fmtSprintf (fun u : Unit => ((7 : Time), u))
    mixedProbes (fun r => r.id != 2) infoMessage World.start (by decide)
    (fun r hr hf => by
      simp only [mixedProbes, List.mem_cons, List.mem_singleton, List.not_mem_nil,
        or_false] at hr
      rcases hr with rfl | rfl | rfl
      · intro _ _
        simp [failing]
      · simp [succeeding] at hf
      · intro _ _
        simp [failing])
    (fun r hr hf => by
      simp only [mixedProbes, List.mem_cons, List.mem_singleton, List.not_mem_nil,
        or_false] at hr
      rcases hr with rfl | rfl | rfl
      · simp [failing] at hf
      · intro _ _
        rfl
      · simp [failing] at hf)

/-- C18 at work: between two succeeding sinks of the outer logger sits an inner
logger whose only sink fails; the escalation stays inside the inner logger. -/
theorem Logger.nested_logger_never_escalates_witness :
    (Logger.Append fmtSprintf
        (Logger.ofRegistrationsAround (steadyClock 9) [succeeding Log.Trace 1] Log.Trace
          (Logger.Append fmtSprintf
            (Logger.ofRegistrations (steadyClock 7) [failing Log.Trace 5 "no more space"]))
          [succeeding Log.Trace 2])
        infoMessage World.start).2.trace
      = [Event.append 1 infoMessage,
         Event.append 5 infoMessage,
         Event.now 7,
         Event.append 5 { Level := Log.Error, Time := 7, Message := "no more space" },
         Event.append 2 infoMessage] := by
  obtain ⟨v1, hv1, htrace⟩ :=
    (Logger.nested_logger_never_escalates fmtSprintf
      (Logger.ofRegistrations (steadyClock 9) [])
      (Logger.ofRegistrations (steadyClock 7) [failing Log.Trace 5 "no more space"])
      Log.Trace infoMessage World.start (steadyClock 9)
      (Logger.ofRegistrations (steadyClock 7) [failing Log.Trace 5 "no more space"])
      [succeeding Log.Trace 1] [succeeding Log.Trace 2] World.start
      (fun r hr => by
        simp only [List.mem_singleton] at hr
        subst hr
        intro _ _
        rfl)
      (fun r hr => by
        simp only [List.mem_singleton] at hr
        subst hr
        intro _ _
        rfl)).2
  rcases v1 with ⟨⟨⟩, tr⟩
  simp only at hv1
  subst hv1
  refine htrace.trans ?_
  simp [Logger.ofRegistrations, Logger.AddSinks, Logger.AddSink, Logger.Append_eq,
    Logger.rangeSinks_cons, Logger.rangeSinks_nil, Logger.Error_eq, Filter.Append, Probe,
    ProbeClock, steadyClock, failing, succeeding, World.start, infoMessage, deliveries,
    Log.Info, Log.Error, Log.Trace]
  decide

/-! ## The time of an escalation message -/

theorem notBefore_refl (t0 : Time) (a : List Event) : NotBefore t0 a a :=
  ⟨[], by simp, by simp⟩

theorem notBefore_trans {t0 : Time} {a b c : List Event} (hab : NotBefore t0 a b)
    (hbc : NotBefore t0 b c) : NotBefore t0 a c := by
  obtain ⟨d1, rfl, h1⟩ := hab
  obtain ⟨d2, rfl, h2⟩ := hbc
  refine ⟨d1 ++ d2, by rw [List.append_assoc], ?_⟩
  intro id m hm
  rcases List.mem_append.mp hm with h | h
  · exact h1 id m h
  · exact h2 id m h

theorem notBefore_call (t0 : Time) (a : List Event) (id : Nat) (msg : Message)
    (hm : t0 ≤ msg.Time) : NotBefore t0 a (a ++ [Event.append id msg]) := by
  refine ⟨_, rfl, ?_⟩
  intro i m h
  simp only [List.mem_singleton, Event.append.injEq] at h
  rw [h.2]
  exact hm

theorem notBefore_reading (t0 : Time) (a : List Event) (t : Time) :
    NotBefore t0 a (a ++ [Event.now t]) := by
  refine ⟨_, rfl, ?_⟩
  intro i m h
  simp at h

theorem Logger.iteration_quiet_world {σ A : Type} (Sprintf : String → List A → String)
    (logger : Logger (World σ)) (r : Registration σ) (msg : Message) (w : World σ)
    (h : ¬ (msg.Level < Log.Error ∧ r.Level ≤ msg.Level
            ∧ (r.behaviour msg w.state).1 ≠ none)) :
    Logger.iteration Sprintf logger r.filter msg w = (r.filter msg w).2 := by
  rw [Logger.iteration, Registration.filter_eq]
  by_cases hl : r.Level ≤ msg.Level
  · simp only [hl, if_true]
    cases hb : (r.behaviour msg w.state).1 with
    | none => rfl
    | some err =>
      have hlt : ¬ msg.Level < Log.Error := fun hlt => h ⟨hlt, hl, by simp [hb]⟩
      simp [hlt]
  · simp [hl]

theorem Logger.iteration_escalates_world {σ A : Type} (Sprintf : String → List A → String)
    (timeSource : Log.TimeSource (World σ)) (regs : List (Registration σ))
    (r : Registration σ) (msg : Message) (w : World σ) (err : Err)
    (hlt : msg.Level < Log.Error) (hl : r.Level ≤ msg.Level)
    (hb : (r.behaviour msg w.state).1 = some err) :
    Logger.iteration Sprintf (Logger.ofRegistrations timeSource regs) r.filter msg w
      = Logger.rangeSinks Sprintf (Logger.ofRegistrations timeSource regs)
          (regs.map Registration.filter)
          ⟨Log.Error,
            (timeSource ⟨(r.behaviour msg w.state).2, w.trace ++ [Event.append r.id msg]⟩).1,
            Sprintf err.Error []⟩
          (timeSource ⟨(r.behaviour msg w.state).2, w.trace ++ [Event.append r.id msg]⟩).2 := by
  rw [Logger.iteration, Registration.filter_eq]
  simp only [hl, if_true, hb, hlt]
  rw [Logger.Error_eq, Logger.Append_eq, Logger.ofRegistrations_Sinks,
    Logger.ofRegistrations_TimeSource]

/-- One call of a filtered probe keeps the times in order. -/
theorem Registration.filter_notBefore {σ : Type} (clock : σ → Time × σ)
    (r : Registration σ) (msg : Message) (t0 : Time)
    (hr : ∀ m s, (clock s).1 ≤ (clock (r.behaviour m s).2).1)
    (hm : t0 ≤ msg.Time) (w : World σ) (hw : t0 ≤ (clock w.state).1) :
    NotBefore t0 w.trace (r.filter msg w).2.trace
      ∧ t0 ≤ (clock (r.filter msg w).2.state).1 := by
  rw [Registration.filter_eq]
  by_cases hl : r.Level ≤ msg.Level
  · simp only [hl, if_true]
    exact ⟨notBefore_call t0 _ _ msg hm, le_trans hw (hr msg w.state)⟩
  · simp only [hl, if_false]
    exact ⟨notBefore_refl t0 _, hw⟩

/-- A pass that cannot escalate keeps the times in order. -/
theorem Logger.rangeSinks_notBefore_quiet {σ A : Type} (Sprintf : String → List A → String)
    (logger : Logger (World σ)) (clock : σ → Time × σ) (regs : List (Registration σ))
    (msg : Message) (t0 : Time) (hne : ¬ msg.Level < Log.Error)
    (hsinks : ∀ r ∈ regs, ∀ m s, (clock s).1 ≤ (clock (r.behaviour m s).2).1)
    (hm : t0 ≤ msg.Time) (w : World σ) (hw : t0 ≤ (clock w.state).1) :
    NotBefore t0 w.trace
        (Logger.rangeSinks Sprintf logger (regs.map Registration.filter) msg w).trace
      ∧ t0 ≤ (clock
          (Logger.rangeSinks Sprintf logger (regs.map Registration.filter) msg w).state).1 := by
  induction regs generalizing w with
  | nil =>
    rw [List.map_nil, Logger.rangeSinks_nil]
    exact ⟨notBefore_refl t0 _, hw⟩
  | cons r rest ih =>
    rw [List.map_cons, Logger.rangeSinks_cons_iteration,
      Logger.iteration_quiet_world Sprintf logger r msg w (fun h => hne h.1)]
    obtain ⟨h1, h2⟩ := Registration.filter_notBefore clock r msg t0
      (hsinks r (List.mem_cons_self _ _)) hm w hw
    obtain ⟨h3, h4⟩ := ih (fun x hx => hsinks x (List.mem_cons_of_mem _ hx)) _ h2
    exact ⟨notBefore_trans h1 h3, h4⟩

/-- Any pass keeps the times in order when the clock never goes back. -/
theorem Logger.rangeSinks_notBefore {σ A : Type} (Sprintf : String → List A → String)
    (clock : σ → Time × σ) (all regs : List (Registration σ)) (msg : Message) (t0 : Time)
    (hclock : ∀ s, (clock s).1 ≤ (clock (clock s).2).1)
    (hall : ∀ r ∈ all, ∀ m s, (clock s).1 ≤ (clock (r.behaviour m s).2).1)
    (hsinks : ∀ r ∈ regs, ∀ m s, (clock s).1 ≤ (clock (r.behaviour m s).2).1)
    (hm : t0 ≤ msg.Time) (w : World σ) (hw : t0 ≤ (clock w.state).1) :
    NotBefore t0 w.trace
        (Logger.rangeSinks Sprintf (Logger.ofRegistrations (ProbeClock clock) all)
          (regs.map Registration.filter) msg w).trace
      ∧ t0 ≤ (clock
          (Logger.rangeSinks Sprintf (Logger.ofRegistrations (ProbeClock clock) all)
            (regs.map Registration.filter) msg w).state).1 := by
  induction regs generalizing w with
  | nil =>
    rw [List.map_nil, Logger.rangeSinks_nil]
    exact ⟨notBefore_refl t0 _, hw⟩
  | cons r rest ih =>
    rw [List.map_cons, Logger.rangeSinks_cons_iteration]
    have hr := hsinks r (List.mem_cons_self _ _)
    have hstep : NotBefore t0 w.trace
          (Logger.iteration Sprintf (Logger.ofRegistrations (ProbeClock clock) all)
            r.filter msg w).trace
        ∧ t0 ≤ (clock
          (Logger.iteration Sprintf (Logger.ofRegistrations (ProbeClock clock) all)
            r.filter msg w).state).1 := by
      by_cases hc : msg.Level < Log.Error ∧ r.Level ≤ msg.Level
          ∧ (r.behaviour msg w.state).1 ≠ none
      · obtain ⟨hlt, hl, hne⟩ := hc
        obtain ⟨err, hb⟩ := Option.ne_none_iff_exists'.mp hne
        rw [Logger.iteration_escalates_world Sprintf _ all r msg w err hlt hl hb]
        have hread : t0 ≤ (clock (r.behaviour msg w.state).2).1 :=
          le_trans hw (hr msg w.state)
        obtain ⟨h1, h2⟩ := Logger.rangeSinks_notBefore_quiet Sprintf
          (Logger.ofRegistrations (ProbeClock clock) all) clock all
          ⟨Log.Error, (clock (r.behaviour msg w.state).2).1, Sprintf err.Error []⟩ t0
          (lt_irrefl _) hall hread
          (ProbeClock clock
            ⟨(r.behaviour msg w.state).2, w.trace ++ [Event.append r.id msg]⟩).2
          (le_trans hread (hclock _))
        refine ⟨notBefore_trans (notBefore_trans (notBefore_call t0 _ r.id msg hm)
          (notBefore_reading t0 _ (clock (r.behaviour msg w.state).2).1)) h1, h2⟩
      · rw [Logger.iteration_quiet_world Sprintf _ r msg w hc]
        exact Registration.filter_notBefore clock r msg t0 hr hm w hw
    obtain ⟨h3, h4⟩ := ih (fun x hx => hsinks x (List.mem_cons_of_mem _ hx)) _ hstep.2
    exact ⟨notBefore_trans hstep.1 h3, h4⟩

/-- With a clock that never goes back, no message handed to a sink during
`Appendf` carries a time before the reading the call starts with. -/
theorem Logger.Appendf_notBefore {σ A : Type} (Sprintf : String → List A → String)
    (clock : σ → Time × σ) (regs : List (Registration σ)) (level : Log.Level)
    (format : String) (args : List A) (w : World σ)
    (hclock : ∀ s, (clock s).1 ≤ (clock (clock s).2).1)
    (hsinks : ∀ r ∈ regs, ∀ m s, (clock s).1 ≤ (clock (r.behaviour m s).2).1) :
    NotBefore (clock w.state).1 w.trace
      (Logger.Appendf Sprintf (Logger.ofRegistrations (ProbeClock clock) regs)
        level format args w).2.trace := by
  rw [Logger.Appendf, Logger.Append_eq, Logger.ofRegistrations_Sinks,
    Logger.ofRegistrations_TimeSource]
  exact notBefore_trans (notBefore_reading _ _ (clock w.state).1)
    (Logger.rangeSinks_notBefore Sprintf clock regs regs _ _ hclock hsinks hsinks
      (le_refl _) (ProbeClock clock w).2 (hclock w.state)).1

/-- C16: when a sink fails on a message below Error, the escalation message
carries the reading of the TimeSource taken in the state that the failing call
left; and with a clock whose successive readings never go back, every message
handed to a sink during `Trace` or `Info`, the escalation messages included,
carries a time not earlier than that of the original message, which is the
reading the call started with. -/
theorem Logger.escalation_time_not_earlier {σ A : Type}
    (Sprintf : String → List A → String) (clock : σ → Time × σ)
    (regs : List (Registration σ)) (format : String) (args : List A) (w : World σ)
    (r : Registration σ) (msg : Message) (v : World σ) (err : Err)
    (hclock : ∀ s, (clock s).1 ≤ (clock (clock s).2).1)
    (hsinks : ∀ x ∈ regs, ∀ m s, (clock s).1 ≤ (clock (x.behaviour m s).2).1)
    (hlt : msg.Level < Log.Error) (hl : r.Level ≤ msg.Level)
    (hb : (r.behaviour msg v.state).1 = some err) :
    (Logger.rangeSinks Sprintf (Logger.ofRegistrations (ProbeClock clock) regs)
        [r.filter] msg v).trace
      = v.trace
          ++ [Event.append r.id msg, Event.now (clock (r.behaviour msg v.state).2).1]
          ++ deliveries regs
              ⟨Log.Error, (clock (r.behaviour msg v.state).2).1, Sprintf err.Error []⟩
    ∧ Logger.Trace Sprintf (Logger.ofRegistrations (ProbeClock clock) regs) format args w
      = Logger.Append Sprintf (Logger.ofRegistrations (ProbeClock clock) regs)
          ⟨Log.Trace, (clock w.state).1, Sprintf format args⟩ (ProbeClock clock w).2
    ∧ Logger.Info Sprintf (Logger.ofRegistrations (ProbeClock clock) regs) format args w
      = Logger.Append Sprintf (Logger.ofRegistrations (ProbeClock clock) regs)
          ⟨Log.Info, (clock w.state).1, Sprintf format args⟩ (ProbeClock clock w).2
    ∧ NotBefore (clock w.state).1 w.trace
        (Logger.Trace Sprintf (Logger.ofRegistrations (ProbeClock clock) regs)
          format args w).2.trace
    ∧ NotBefore (clock w.state).1 w.trace
        (Logger.Info Sprintf (Logger.ofRegistrations (ProbeClock clock) regs)
          format args w).2.trace := by
  refine ⟨?_, ?_, ?_, ?_, ?_⟩
  · rw [Logger.rangeSinks_cons_iteration, Logger.rangeSinks_nil,
      Logger.iteration_escalates Sprintf _ regs r msg v err hlt hl hb]
    simp [ProbeClock]
  · rw [Logger.Trace, Logger.Appendf, Logger.ofRegistrations_TimeSource]
    rfl
  · rw [Logger.Info, Logger.Appendf, Logger.ofRegistrations_TimeSource]
    rfl
  · rw [Logger.Trace]
    exact Logger.Appendf_notBefore Sprintf clock regs _ format args w hclock hsinks
  · rw [Logger.Info]
    exact Logger.Appendf_notBefore Sprintf clock regs _ format args w hclock hsinks

/-- C16 at work: a clock that advances with every reading, a sink that fails;
`Info` started at reading 5 hands over an escalation message stamped 6. -/
theorem Logger.escalation_time_not_earlier_witness :
    (Logger.Info fmtSprintf
        (Logger.ofRegistrations (ProbeClock tickingClock)
          [tickFailing Log.Trace 1 "no more space", tickSucceeding Log.Error 2])
        "nothing serious" [] { state := 5, trace := [] }).2.trace
      = [Event.now 5,
         Event.append 1 { Level := Log.Info, Time := 5, Message := "nothing serious" },
         Event.now 6,
         Event.append 1 { Level := Log.Error, Time := 6, Message := "no more space" },
         Event.append 2 { Level := Log.Error, Time := 6, Message := "no more space" }]
    ∧ NotBefore 5 []
        (Logger.Info fmtSprintf
          (Logger.ofRegistrations (ProbeClock tickingClock)
            [tickFailing Log.Trace 1 "no more space", tickSucceeding Log.Error 2])
          "nothing serious" [] { state := 5, trace := [] }).2.trace := by
  refine ⟨?_, (Logger.escalation_time_not_earlier fmtSprintf tickingClock
      [tickFailing Log.Trace 1 "no more space", tickSucceeding Log.Error 2]
      "nothing serious" [] { state := 5, trace := [] }
      (tickFailing Log.Trace 1 "no more space") infoMessage { state := 5, trace := [] }
      { Error := "no more space" }
      (fun s => Nat.le_succ s)
      (fun x hx => by
        simp only [List.mem_cons, List.mem_singleton, List.not_mem_nil, or_false] at hx
        rcases hx with rfl | rfl
        · intro _ s
          exact le_refl _
        · intro _ s
          exact le_refl _)
      (by decide) (by decide) rfl).2.2.2.2⟩
  simp [Logger.ofRegistrations, Logger.AddSinks, Logger.AddSink, Logger.Info,
    Logger.Appendf, Logger.Append_eq, Logger.rangeSinks_cons, Logger.rangeSinks_nil,
    Logger.Error_eq, Filter.Append, Probe, ProbeClock, tickingClock, tickFailing,
    tickSucceeding, Log.Info, Log.Error, Log.Trace]
  decide

end Log
